import Mathlib

/-!
Verification development for the `legend-daq2lh5` ORCA/FlashCam streamer.

The definitions below are a shallow embedding of
`src/daq2lh5/orca/orca_streamer.py` (class `OrcaStreamer`),
`src/daq2lh5/fc/fc_event_decoder.py` (`FCEventDecoder` and the module-level
`fc_decoded_values` schema) and `src/daq2lh5/fc/fc_status_decoder.py`
(`FCStatusDecoder`).

The input byte stream is a `List Nat` of bytes; 32-bit words are assembled
little-endian, as `numpy.frombuffer(..., dtype="uint32")` does on the
platforms this package targets.  Machine integers are `Nat`/`Int` with
explicit `% 2 ^ 32` where the Python code performs `numpy.uint32`
(wrap-around) arithmetic.  Python exceptions are `Except String`.
The streamer's reusable word buffer is not modelled as a separate object:
`load_packet` returns the packet words directly (the values the buffer view
would hold).
-/

namespace Daq2lh5

/-! ## Bytes and 32-bit words -/

/-- Assemble one little-endian 32-bit word from four bytes. -/
def bytesToWord (b0 b1 b2 b3 : Nat) : Nat :=
  b0 + 256 * b1 + 65536 * b2 + 16777216 * b3

/-- The four little-endian bytes of a 32-bit word. -/
def wordBytes (w : Nat) : List Nat :=
  [w % 256, w / 256 % 256, w / 65536 % 256, w / 16777216 % 256]

/-- Serialize a list of 32-bit words to a little-endian byte stream. -/
def wordsToBytes (ws : List Nat) : List Nat :=
  ws.flatMap wordBytes

/-- Group a byte list into little-endian 32-bit words (an incomplete trailing group is
dropped; callers only use it on byte lists whose length is a multiple of 4). -/
def bytesToWords : List Nat → List Nat
  | b0 :: b1 :: b2 :: b3 :: rest => bytesToWord b0 b1 b2 b3 :: bytesToWords rest
  | _ => []

/-- The `n` bytes of `data` starting at offset `pos` (fewer if the stream
ends first) — the bytes a `readinto` of size `n` would obtain. -/
def readBytes (data : List Nat) (pos n : Nat) : List Nat :=
  (data.drop pos).take n

/-! ## Packet codec

Modelled from the spec: the module `orca_packet.py` is not under `src/`
(only its callers and tests are).  Per spec section 4.1 and section 3, the
first word of a packet is the header word; a framing bit (the top bit)
marks a short packet; the destination identifier is the 14-bit sub-field
also tested by `is_orca_stream`'s mask `0xFFFC0000` (bits 18–31); the
remaining low 18 bits hold the total word count of a long packet; a short
packet is the header word only, hence has total word count 1. -/

/-- Modelled from the spec: `orca_packet.is_short` — true when the
short-packet framing bit (top bit of the header word) is set. -/
def is_short (h : Nat) : Bool :=
  h / 2 ^ 31 % 2 == 1

/-- Modelled from the spec: `orca_packet.get_n_words` — total word count of
the packet including the header word (a short packet is one word). -/
def get_n_words (h : Nat) : Nat :=
  if is_short h then 1 else h % 2 ^ 18

/-- Modelled from the spec: `orca_packet.get_data_id` — the destination
identifier sub-field (bits 18–31), either shifted down or left in place. -/
def get_data_id (h : Nat) (shift : Bool) : Nat :=
  if shift then h / 2 ^ 18 % 2 ^ 14 else h / 2 ^ 18 % 2 ^ 14 * 2 ^ 18

/-! ## Streamer state

State of an `OrcaStreamer` instance.  `decoder_ids`, `rbl_ids` and
`missing_decoders` are the key sets of `decoder_id_dict`, `rbl_id_dict` and
the `missing_decoders` list populated by `open_stream`.  `warnings` records
the data ids of the `log.warning("no implementation of ...")` calls made by
`read_packet`, and `decoded` records each `decode_packet` invocation as
`(packet_id, data_id, returned boolean)`.  `decodeFn` abstracts the
registered decoders' `decode_packet` results (the per-format decoders are
external to the streamer). -/

structure OrcaStreamerState where
  opened : Bool
  data : List Nat
  pos : Nat
  n_bytes_read : Nat
  packet_id : Int
  packet_locs : List Nat
  decoder_ids : List Nat
  rbl_ids : List Nat
  missing_decoders : List Nat
  warnings : List Nat
  decoded : List (Int × Nat × Bool)
  any_full : Bool
  decodeFn : Nat → Int → List Nat → Bool

abbrev OSt := OrcaStreamerState

/-- Python list indexing (negative indices count from the end). -/
def pyIdx (l : List Nat) (i : Int) : Option Nat :=
  let j : Int := if i < 0 then (l.length : Int) + i else i
  if j < 0 then none else l.get? j.toNat

/-- Embeds `OrcaStreamer.load_packet_header`: read exactly 4 bytes at the current
position; 0 bytes is EOF (`none`, no error), 1–3 bytes is a fatal error; on
a 4-byte read increment `packet_id` and record/validate the packet's byte
offset in `packet_locs`. -/
def load_packet_header (s : OSt) : Except String (Option Nat × OSt) :=
  if !s.opened then .error "in_stream is None" else
  let bs := readBytes s.data s.pos 4
  let n := bs.length
  let s1 := { s with n_bytes_read := s.n_bytes_read + n }
  if n = 0 then .ok (none, s1)
  else if n ≠ 4 then .error "only got n bytes for packet header"
  else
    let w := bytesToWord (bs.getD 0 0) (bs.getD 1 0) (bs.getD 2 0) (bs.getD 3 0)
    let s2 := { s1 with pos := s1.pos + 4, packet_id := s1.packet_id + 1 }
    let filepos := s2.pos - 4
    if s2.packet_id < (s2.packet_locs.length : Int) then
      match pyIdx s2.packet_locs s2.packet_id with
      | none => .error "IndexError"
      | some v =>
          if v ≠ filepos then .error "filepos for packet was not what was expected"
          else .ok (some w, s2)
    else
      if (s2.packet_locs.length : Int) ≠ s2.packet_id then
        .error "loaded packet after wrong packet"
      else .ok (some w, { s2 with packet_locs := s2.packet_locs ++ [filepos] })

/-- Embeds `in_stream.seek(off, 1)`: relative seek (negative target is an OS error). -/
def seekRel (s : OSt) (off : Int) : Except String OSt :=
  if (s.pos : Int) + off < 0 then .error "negative seek position"
  else .ok { s with pos := ((s.pos : Int) + off).toNat }

/-- The `while n > 0` loop body of `OrcaStreamer.skip_packet`: read a header,
seek past the payload, `n` times; `false` the moment EOF is hit. -/
def skip_packet_loop : Nat → OSt → Except String (Bool × OSt)
  | 0, s => .ok (true, s)
  | n + 1, s => do
    let (hOpt, s) ← load_packet_header s
    match hOpt with
    | none => .ok (false, s)
    | some h => do
      let s ← seekRel s (((get_n_words h : Int) - 1) * 4)
      skip_packet_loop n s

/-- Embeds `OrcaStreamer.skip_packet(n)`: rejects a closed stream and a negative
`n`, then skips `n` packets without buffering their payloads. -/
def skip_packet (s : OSt) (n : Int) : Except String (Bool × OSt) :=
  if !s.opened then .error "self.in_stream is None"
  else if !(0 ≤ n) then .error "n must be a non-negative int"
  else skip_packet_loop n.toNat s

/-- The `while self.skip_packet(): pass` loop of
`OrcaStreamer.build_packet_locs`; `fuel` bounds the number of packets
scanned (exhaustion is an error, never silent). -/
def build_packet_locs_loop : Nat → OSt → Except String OSt
  | 0, _ => .error "fuel exhausted"
  | fuel + 1, s => do
    let (b, s) ← skip_packet s 1
    if b then build_packet_locs_loop fuel s else .ok s

/-- Embeds `OrcaStreamer.build_packet_locs(saveloc)`: scan forward from the last
known index entry to EOF, filling in all remaining offsets; optionally
restore the read position and packet counter afterward. -/
def build_packet_locs (fuel : Nat) (saveloc : Bool) (s : OSt) : Except String OSt := do
  let loc := s.pos
  let pid := s.packet_id
  let s :=
    if 0 < s.packet_locs.length then
      { s with pos := s.packet_locs.getLastD 0,
               packet_id := (s.packet_locs.length : Int) - 2 }
    else s
  let s ← build_packet_locs_loop fuel s
  .ok (if saveloc then { s with pos := loc, packet_id := pid } else s)

/-- The `while index >= len(self.packet_locs)` loop of
`OrcaStreamer.load_packet`: extend the packet index by skipping packets
until entry `i` exists; `false` when EOF is hit first. -/
def extendLocs (i : Int) : Nat → OSt → Except String (Bool × OSt)
  | 0, s =>
    if i < (s.packet_locs.length : Int) then .ok (true, s)
    else .error "fuel exhausted"
  | fuel + 1, s =>
    if i < (s.packet_locs.length : Int) then .ok (true, s)
    else do
      let (b, s) ← skip_packet s 1
      if b then extendLocs i fuel s else .ok (false, s)

/-- The sequential part of `OrcaStreamer.load_packet` (everything after the
optional index handling): load the header; at EOF return `none`; a short
packet is returned header-only; an unknown-id long packet is seeked past
when `skip_unknown_ids` is set; otherwise the payload is read, a short
payload read being logged and reported as EOF (`none`). -/
def loadSeq (skip_unknown_ids : Bool) (s : OSt) :
    Except String (Option (List Nat) × OSt) := do
  let (hOpt, s) ← load_packet_header s
  match hOpt with
  | none => .ok (none, s)
  | some h =>
    if is_short h then .ok (some [h], s)
    else
      let n_words := get_n_words h
      if skip_unknown_ids && !(s.decoder_ids.contains (get_data_id h false)) then do
        let s ← seekRel s (((n_words : Int) - 1) * 4)
        .ok (some [h], s)
      else
        let payload := readBytes s.data s.pos ((n_words - 1) * 4)
        let nbr := payload.length
        let s := { s with pos := s.pos + nbr, n_bytes_read := s.n_bytes_read + nbr }
        if (nbr : Int) = ((n_words : Int) - 1) * 4 then
          .ok (some (h :: bytesToWords payload), s)
        else
          .ok (none, s)

/-- Embeds `OrcaStreamer.load_packet(index, whence, skip_unknown_ids)`: the general
random/sequential read primitive.  `fuel` bounds the index-building loops
(`build_packet_locs` for `whence = 2` and the index-extension loop). -/
def load_packet (fuel : Nat) (index? : Option Int) (whence : Int)
    (skip_unknown_ids : Bool) (s : OSt) :
    Except String (Option (List Nat) × OSt) := do
  if !s.opened then .error "self.in_stream is None"
  else
    match index? with
    | none => loadSeq skip_unknown_ids s
    | some index0 => do
      if whence ≠ 0 ∧ whence ≠ 1 ∧ whence ≠ 2 then .error "whence is invalid"
      else do
        let (index, s) ←
          if whence = 1 then pure (index0 + s.packet_id - 1, s)
          else if whence = 2 then do
            let s ← build_packet_locs fuel false s
            pure (index0 + (s.packet_locs.length : Int) - 2, s)
          else pure (index0, s)
        if index < 0 then
          .ok (none, { s with pos := 0, packet_id := -1 })
        else do
          let (reached, s) ← extendLocs index fuel s
          if !reached then .ok (none, s)
          else
            loadSeq skip_unknown_ids
              { s with pos := s.packet_locs.getD index.toNat 0,
                       packet_id := index - 1 }

/-- Embeds `OrcaStreamer.read_packet`: repeatedly load packets (skipping unknown
ids) until EOF (`false`) or a packet whose data id has both a decoder and a
bound raw-buffer list; a data id recorded in `missing_decoders` is warned
about and skipped; the found packet is decoded, the decoder's boolean is
ORed into `any_full`, and `true` is returned.  `fuel` bounds the loop;
`none` means fuel ran out. -/
def read_packet : Nat → OSt → Except String (Option (Bool × OSt))
  | 0, _ => .ok none
  | fuel + 1, s => do
    let (pOpt, s) ← load_packet 0 none 0 true s
    match pOpt with
    | none => .ok (some (false, s))
    | some packet =>
      let data_id := get_data_id (packet.headD 0) false
      if s.missing_decoders.contains data_id then
        read_packet fuel { s with warnings := s.warnings ++ [data_id] }
      else if s.rbl_ids.contains data_id then
        let v := s.decodeFn data_id s.packet_id packet
        .ok (some (true, { s with any_full := s.any_full || v,
                                  decoded := s.decoded ++ [(s.packet_id, data_id, v)] }))
      else
        read_packet fuel s

/-! ## Validity probe (`OrcaStreamer.is_orca_stream`)

`bytes.decode()` is Python's strict UTF-8 decoder; it raises
`UnicodeDecodeError` on invalid input.  `utf8Decode` below is standard
UTF-8 over byte lists, returning the decoded code points. -/

/-- Strict UTF-8 decoding of a byte list into code points (`none` models
Python's `UnicodeDecodeError`). -/
def utf8Decode : List Nat → Option (List Nat)
  | [] => some []
  | b :: bs =>
    if b ≤ 0x7F then (utf8Decode bs).map (b :: ·)
    else if 0xC2 ≤ b ∧ b ≤ 0xDF then
      match bs with
      | c :: bs2 =>
        if 0x80 ≤ c ∧ c ≤ 0xBF then
          (utf8Decode bs2).map (((b - 0xC0) * 0x40 + (c - 0x80)) :: ·)
        else none
      | [] => none
    else if 0xE0 ≤ b ∧ b ≤ 0xEF then
      let lo1 := if b = 0xE0 then 0xA0 else 0x80
      let hi1 := if b = 0xED then 0x9F else 0xBF
      match bs with
      | c1 :: c2 :: bs2 =>
        if (lo1 ≤ c1 ∧ c1 ≤ hi1) ∧ (0x80 ≤ c2 ∧ c2 ≤ 0xBF) then
          (utf8Decode bs2).map
            (((b - 0xE0) * 0x1000 + (c1 - 0x80) * 0x40 + (c2 - 0x80)) :: ·)
        else none
      | _ => none
    else if 0xF0 ≤ b ∧ b ≤ 0xF4 then
      let lo1 := if b = 0xF0 then 0x90 else 0x80
      let hi1 := if b = 0xF4 then 0x8F else 0xBF
      match bs with
      | c1 :: c2 :: c3 :: bs2 =>
        if (lo1 ≤ c1 ∧ c1 ≤ hi1) ∧ (0x80 ≤ c2 ∧ c2 ≤ 0xBF) ∧
            (0x80 ≤ c3 ∧ c3 ≤ 0xBF) then
          (utf8Decode bs2).map
            (((b - 0xF0) * 0x40000 + (c1 - 0x80) * 0x1000 + (c2 - 0x80) * 0x40 +
              (c3 - 0x80)) :: ·)
        else none
      | _ => none
    else none

/-- The code points of the fixed tag "<?xm" checked by the probe. -/
def orcaTag : List Nat := [0x3C, 0x3F, 0x78, 0x6D]

/-- Embeds `OrcaStreamer.is_orca_stream` on the stream's bytes: read 12 bytes;
reject on a short read, on nonzero top 14 bits of word 0, on a pad outside
`[0, 3]` (numpy `uint32` wrap-around arithmetic: the `pad < 0` test can
never fire), or on a tag mismatch; `bytes.decode()` of invalid UTF-8
propagates as an exception. -/
def is_orca_stream (stream : List Nat) : Except String Bool :=
  let first_bytes := stream.take 12
  if first_bytes.length ≠ 12 then .ok false
  else
    let w0 := bytesToWord (first_bytes.getD 0 0) (first_bytes.getD 1 0)
        (first_bytes.getD 2 0) (first_bytes.getD 3 0) % 2 ^ 32
    let w1 := bytesToWord (first_bytes.getD 4 0) (first_bytes.getD 5 0)
        (first_bytes.getD 6 0) (first_bytes.getD 7 0) % 2 ^ 32
    if w0 &&& 0xFFFC0000 ≠ 0 then .ok false
    else
      let pad := (w0 * 4 % 2 ^ 32 + (2 ^ 32 - 8) + (2 ^ 32 - w1)) % 2 ^ 32
      if 3 < pad then .ok false
      else
        match utf8Decode (first_bytes.drop 8) with
        | none => .error "UnicodeDecodeError"
        | some cs => .ok (cs == orcaTag)

/-! ## FlashCam decoders (`fc_event_decoder.py`, `fc_status_decoder.py`)

`RawBuffer` is modelled from the spec: `raw_buffer.py` is not under `src/`.
Per spec sections 3 and 4.2, a `RawBuffer` wraps one fixed-length row table
(`rows`) and a fill offset `loc`, and is full when the fill offset is at or
beyond the table capacity.  The `fcio` objects are the external `fcio`
package's interface, modelled as plain records (fields indexed in the
source are total functions here). -/

structure RawBuffer (ρ : Type) where
  loc : Nat
  rows : List ρ
  deriving DecidableEq

/-- Modelled from the spec: `RawBuffer.is_full` — fill offset at or beyond
the table capacity. -/
def RawBuffer.is_full {ρ : Type} (rb : RawBuffer ρ) : Bool :=
  decide (rb.rows.length ≤ rb.loc)

/-- The members of `fcio.event` read by `FCEventDecoder.decode_packet`. -/
structure FCIOEvent where
  num_traces : Nat
  trace_list : List Nat
  timestamp : Nat → Int
  timeoffset : Nat → Int
  deadregion : Nat → Int
  deadregion_size : Nat
  utc_unix : Rat
  dead_time_ns : Nat → Int
  run_time : Rat
  fpga_baseline : Nat → Int
  fpga_energy : Nat → Int
  trace : Nat → List Int

/-- The members of `fcio.config` read by `FCEventDecoder`. -/
structure FCIOConfig where
  eventsamples : Int
  adcs : Int
  nsamples : Int
  nadcs : Int

structure FCIO where
  event : FCIOEvent
  config : FCIOConfig

/-- One row of the event table, as filled by
`FCEventDecoder.decode_packet` (float-valued fields are exact rationals
here). -/
structure EventRow where
  channel : Nat
  packet_id : Nat
  eventnumber : Int
  numtraces : Nat
  tracelist : List Nat
  ts_pps : Int
  ts_ticks : Int
  ts_maxticks : Int
  mu_offset_sec : Int
  mu_offset_usec : Int
  to_master_sec : Int
  delta_mu_usec : Int
  abs_delta_mu_usec : Int
  to_start_sec : Int
  to_start_usec : Int
  dr_start_pps : Int
  dr_start_ticks : Int
  dr_stop_pps : Int
  dr_stop_ticks : Int
  dr_maxticks : Int
  dr_ch_idx : Int
  dr_ch_len : Int
  timestamp : Rat
  deadtime_nsec : Int
  runtime : Rat
  baseline : Int
  daqenergy : Int
  waveform : List Int
  deriving DecidableEq

/-- The row written for trigger index `idx` (channel `iwf`) of one event
packet — the field assignments of `FCEventDecoder.decode_packet`. -/
def fc_event_row (fcio : FCIO) (packet_id : Nat) (idx iwf : Nat) : EventRow :=
  { channel := iwf
    packet_id := packet_id
    eventnumber := fcio.event.timestamp 0
    numtraces := fcio.event.num_traces
    tracelist := fcio.event.trace_list
    ts_pps := fcio.event.timestamp 1
    ts_ticks := fcio.event.timestamp 2
    ts_maxticks := fcio.event.timestamp 3
    mu_offset_sec := fcio.event.timeoffset 0
    mu_offset_usec := fcio.event.timeoffset 1
    to_master_sec := fcio.event.timeoffset 2
    delta_mu_usec := fcio.event.timeoffset 3
    abs_delta_mu_usec := fcio.event.timeoffset 4
    to_start_sec := fcio.event.timeoffset 5
    to_start_usec := fcio.event.timeoffset 6
    dr_start_pps := fcio.event.deadregion 0
    dr_start_ticks := fcio.event.deadregion 1
    dr_stop_pps := fcio.event.deadregion 2
    dr_stop_ticks := fcio.event.deadregion 3
    dr_maxticks := fcio.event.deadregion 4
    dr_ch_idx := if fcio.event.deadregion_size = 7 then fcio.event.deadregion 5 else 0
    dr_ch_len :=
      if fcio.event.deadregion_size = 7 then fcio.event.deadregion 6
      else fcio.config.adcs
    timestamp := fcio.event.utc_unix
    deadtime_nsec := fcio.event.dead_time_ns iwf
    runtime := fcio.event.run_time
    baseline := fcio.event.fpga_baseline iwf
    daqenergy := fcio.event.fpga_energy iwf
    waveform := fcio.event.trace idx }

/-- Embeds the `self.skipped_channels` bookkeeping: first skip of a channel inserts a
zero entry (and logs once), every skip increments it. -/
def skippedIncr (skipped : List (Nat × Nat)) (iwf : Nat) : List (Nat × Nat) :=
  match skipped.lookup iwf with
  | none => skipped ++ [(iwf, 1)]
  | some n => skipped.map (fun p => if p.1 = iwf then (iwf, n + 1) else p)

/-- The `for idx in range(fcio.event.num_traces)` loop of
`FCEventDecoder.decode_packet`, iterating over the remaining trigger
indices with the running `any_full`, buffer map and skipped-channel dict. -/
def fcEventDecodeLoop (fcio : FCIO) (packet_id : Nat) :
    List Nat → Bool → (Nat → Option (RawBuffer EventRow)) → List (Nat × Nat) →
    Bool × (Nat → Option (RawBuffer EventRow)) × List (Nat × Nat)
  | [], any_full, rbkd, skipped => (any_full, rbkd, skipped)
  | idx :: rest, any_full, rbkd, skipped =>
    let iwf := fcio.event.trace_list.getD idx 0
    match rbkd iwf with
    | none =>
        fcEventDecodeLoop fcio packet_id rest any_full rbkd (skippedIncr skipped iwf)
    | some rb =>
        let ii := rb.loc
        let rb2 : RawBuffer EventRow :=
          { loc := ii + 1, rows := rb.rows.set ii (fc_event_row fcio packet_id idx iwf) }
        fcEventDecodeLoop fcio packet_id rest (any_full || rb2.is_full)
          (fun c => if c = iwf then some rb2 else rbkd c) skipped

/-- Embeds `FCEventDecoder.decode_packet(fcio, evt_rbkd, packet_id)`: for each
triggered channel with a table in `evt_rbkd`, fill one row at the buffer's
fill offset, advance the offset, and OR in the buffer's full predicate;
channels without a table are counted in `skipped_channels`.  Returns the
final `any_full`, the updated buffer map and the skipped-channel dict. -/
def fcEventDecodePacket (fcio : FCIO) (rbkd : Nat → Option (RawBuffer EventRow))
    (packet_id : Nat) (skipped : List (Nat × Nat)) :
    Bool × (Nat → Option (RawBuffer EventRow)) × List (Nat × Nat) :=
  fcEventDecodeLoop fcio packet_id (List.range fcio.event.num_traces) false rbkd skipped

/-- The members of `fcio.status` read by `FCStatusDecoder.decode_packet`. -/
structure FCIOStatus where
  status : Int
  statustime : Nat → Int
  cards : Int
  size : Int

/-- One row of the status table (float-valued fields exact rationals). -/
structure StatusRow where
  status : Int
  statustime : Rat
  cputime : Rat
  startoffset : Rat
  cards : Int
  size : Int
  deriving DecidableEq

/-- Embeds `FCStatusDecoder.decode_packet(fcio, status_rb, packet_id)`: fill one
row at the fill offset, advance it by one, and return
`status_rb.loc >= len(tbl)`. -/
def fcStatusDecodePacket (st : FCIOStatus) (rb : RawBuffer StatusRow) :
    Bool × RawBuffer StatusRow :=
  let ii := rb.loc
  let row : StatusRow :=
    { status := st.status
      statustime := (st.statustime 0 : Rat) + (st.statustime 1 : Rat) / 1000000
      cputime := (st.statustime 2 : Rat) + (st.statustime 3 : Rat) / 1000000
      startoffset := (st.statustime 5 : Rat) + (st.statustime 6 : Rat) / 1000000
      cards := st.cards
      size := st.size }
  let rb2 : RawBuffer StatusRow := { loc := ii + 1, rows := rb.rows.set ii row }
  (decide (rb2.rows.length ≤ rb2.loc), rb2)

/-! ## The `fc_decoded_values` schema and `FCEventDecoder` construction

For claim C10 the Python object graph matters: `fc_decoded_values` is a
module-level dictionary, `FCEventDecoder.__init__` stores
`copy.deepcopy(fc_decoded_values)` (a full value copy, sharing nothing)
into the instance, and `set_file_config` mutates the instance's copy in
place.  Mutable dictionaries are modelled as cells of a `Store`; the
module-level dictionary lives at address 0. -/

inductive PVal
  | str (s : String)
  | int (n : Int)
  deriving DecidableEq

abbrev FieldSpec := List (String × PVal)

abbrev DecodedValues := List (String × FieldSpec)

/-- The module-level `fc_decoded_values` literal of `fc_event_decoder.py`. -/
def fc_decoded_values : DecodedValues :=
  [ ("packet_id", [("dtype", .str "uint32")]),
    ("eventnumber", [("dtype", .str "int32")]),
    ("timestamp", [("dtype", .str "float64"), ("units", .str "s")]),
    ("runtime", [("dtype", .str "float64"), ("units", .str "s")]),
    ("numtraces", [("dtype", .str "int32")]),
    ("tracelist",
      [("dtype", .str "uint16"),
       ("datatype", .str "array<1>\x7barray<1>\x7breal\x7d\x7d"),
       ("length_guess", .int 16)]),
    ("baseline", [("dtype", .str "uint16")]),
    ("daqenergy", [("dtype", .str "uint16")]),
    ("channel", [("dtype", .str "uint32")]),
    ("ts_pps", [("dtype", .str "int32")]),
    ("ts_ticks", [("dtype", .str "int32")]),
    ("ts_maxticks", [("dtype", .str "int32")]),
    ("mu_offset_sec", [("dtype", .str "int32")]),
    ("mu_offset_usec", [("dtype", .str "int32")]),
    ("to_master_sec", [("dtype", .str "int32")]),
    ("delta_mu_usec", [("dtype", .str "int32")]),
    ("abs_delta_mu_usec", [("dtype", .str "int32")]),
    ("to_start_sec", [("dtype", .str "int32")]),
    ("to_start_usec", [("dtype", .str "int32")]),
    ("dr_start_pps", [("dtype", .str "int32")]),
    ("dr_start_ticks", [("dtype", .str "int32")]),
    ("dr_stop_pps", [("dtype", .str "int32")]),
    ("dr_stop_ticks", [("dtype", .str "int32")]),
    ("dr_maxticks", [("dtype", .str "int32")]),
    ("deadtime_nsec", [("dtype", .str "int64")]),
    ("dr_ch_idx", [("dtype", .str "uint16")]),
    ("dr_ch_len", [("dtype", .str "uint16")]),
    ("waveform",
      [("dtype", .str "uint16"),
       ("datatype", .str "waveform"),
       ("wf_len", .int 65532),
       ("dt", .int 16),
       ("dt_units", .str "ns"),
       ("t0_units", .str "ns")]) ]

/-- Python dictionary assignment `d[k] = v` (update in place, or append a
new key). -/
def dictSet {β : Type} (d : List (String × β)) (k : String) (v : β) :
    List (String × β) :=
  if (d.lookup k).isSome then d.map (fun p => if p.1 = k then (k, v) else p)
  else d ++ [(k, v)]

/-- Nested assignment `d[k1][k2] = v`. -/
def dictSet2 (d : DecodedValues) (k1 k2 : String) (v : PVal) : DecodedValues :=
  dictSet d k1 (dictSet ((d.lookup k1).getD []) k2 v)

/-- Nested lookup `d[k1][k2]`. -/
def dictGet2 (d : DecodedValues) (k1 k2 : String) : Option PVal :=
  ((d.lookup k1).getD []).lookup k2

/-- Heap of mutable dictionary values; the module-level `fc_decoded_values`
object is the cell at address 0. -/
abbrev Store := List DecodedValues

/-- The store right after importing `fc_event_decoder`. -/
def initStore : Store := [fc_decoded_values]

/-- Embeds `FCEventDecoder.__init__`: `self.decoded_values =
copy.deepcopy(fc_decoded_values)` — allocate a fresh cell holding a full
copy of the module-level dictionary's current value, and return its
address. -/
def fcEventDecoderInit (st : Store) : Store × Nat :=
  (st ++ [st.getD 0 []], st.length)

/-- Embeds `FCEventDecoder.set_file_config`: overwrite the instance schema's
`waveform.wf_len` with `nsamples` and `tracelist.length_guess` with
`nadcs`, in place through the instance's address. -/
def set_file_config (st : Store) (addr : Nat) (nsamples nadcs : Int) : Store :=
  let dv := st.getD addr []
  let dv := dictSet2 dv "waveform" "wf_len" (.int nsamples)
  let dv := dictSet2 dv "tracelist" "length_guess" (.int nadcs)
  st.set addr dv

/-! ## Concrete streams and states used by witnesses and counterexamples -/

/-- A fresh `OrcaStreamer` state on a given byte stream, with the registry
key sets produced by `open_stream` supplied directly. -/
def mkState (data dec rbl mis : List Nat) (fn : Nat → Int → List Nat → Bool) : OSt :=
  { opened := true, data := data, pos := 0, n_bytes_read := 0, packet_id := -1,
    packet_locs := [], decoder_ids := dec, rbl_ids := rbl,
    missing_decoders := mis, warnings := [], decoded := [], any_full := false,
    decodeFn := fn }

/-- A constantly-false decoder result (a decode that fills no buffer). -/
def noFullFn : Nat → Int → List Nat → Bool := fun _ _ _ => false

/-- A two-word stream: one long packet of data id 1 (shifted), two words. -/
def exC6 : OSt := mkState (wordsToBytes [262146, 5]) [] [] [] noFullFn

/-- The state after reading the header of `exC6`. -/
def exC6res : OSt := ((load_packet_header exC6).toOption.map Prod.snd).getD exC6

/-- A two-word stream for the C9 witness. -/
def exC9 : OSt := mkState (wordsToBytes [262146, 5]) [] [] [] noFullFn

/-- The state after `skip_packet(1)` on `exC9`. -/
def exC9s : OSt := ((skip_packet exC9 1).toOption.map Prod.snd).getD exC9

/-- A two-word stream for the C7 witness. -/
def exC7 : OSt := mkState (wordsToBytes [262146, 5]) [] [] [] noFullFn

/-! ## Claim C8: the validity probe -/

/-- The 32-bit little-endian word at byte offset `k` of a stream. -/
def probeWord (bs : List Nat) (k : Nat) : Nat :=
  bytesToWord (bs.getD k 0) (bs.getD (k + 1) 0) (bs.getD (k + 2) 0)
    (bs.getD (k + 3) 0) % 2 ^ 32

/-- The probe's pad value in `numpy.uint32` wrap-around arithmetic:
`uint32(word0 * 4 - 8 - word1)`. -/
def probePad (bs : List Nat) : Nat :=
  (probeWord bs 0 * 4 % 2 ^ 32 + (2 ^ 32 - 8) + (2 ^ 32 - probeWord bs 4)) % 2 ^ 32

/-- A 12-byte stream accepted by the probe although the pad computed in
plain integer arithmetic is negative: word0 = 0, word1 = 0xFFFFFFF7
(`uint32(0*4-8-word1) = 1`), tag bytes spell the expected tag. -/
def exC8wrap : List Nat := wordsToBytes [0, 0xFFFFFFF7] ++ [0x3C, 0x3F, 0x78, 0x6D]

/-- A 12-byte stream passing the first two checks whose tag bytes are not
valid UTF-8 (so `bytes.decode()` raises instead of returning a boolean). -/
def exC8bad : List Nat := wordsToBytes [3, 4] ++ [0xFF, 0xFF, 0xFF, 0xFF]

/-! ## Claim C5: the packet-offset index invariant -/

/-- The header word framed at byte offset `p` of the stream. -/
def headerWordAt (data : List Nat) (p : Nat) : Nat :=
  let bs := readBytes data p 4
  bytesToWord (bs.getD 0 0) (bs.getD 1 0) (bs.getD 2 0) (bs.getD 3 0)

/-- The invariant tying the cached index to the cursor: offsets are
strictly increasing, the packet counter is at least −1, and whenever the
counter has reached the last recorded packet the cursor is past that
packet's header. -/
def locsInv (s : OSt) : Prop :=
  List.Chain' (· < ·) s.packet_locs ∧ -1 ≤ s.packet_id ∧
  (s.packet_locs ≠ [] → (s.packet_locs.length : Int) ≤ s.packet_id + 1 →
    s.packet_locs.getLastD 0 + 4 ≤ s.pos)

/-- Every word of the stream, read as a packet header, declares at least
one packet word (rules out the backward seek of a zero-length packet). -/
def goodData (data : List Nat) : Prop :=
  ∀ p, p + 4 ≤ data.length → 1 ≤ get_n_words (headerWordAt data p)

/-- A well-formed two-word stream for the C5 witness. -/
def exC5g : OSt := mkState (wordsToBytes [262146, 5]) [] [] [] noFullFn

/-- State after one `skip_packet` on `exC5g`. -/
def exC5s : OSt := ((skip_packet exC5g 1).toOption.map Prod.snd).getD exC5g

/-! ## Claims C1 and C2: `read_packet` -/

/-- Stream with two packets of a data id recorded as missing-decoder
(unshifted id `5 << 18 = 1310720`; each packet is one header word
declaring one total word). -/
def exC1 : OSt := mkState (wordsToBytes [1310721, 1310721]) [] [] [1310720] noFullFn

/-- The final `(result, state)` of a full `read_packet` call on `exC1`. -/
def exC1res : Bool × OSt :=
  (((read_packet 5 exC1).toOption).getD none).getD (false, exC1)

/-- Stream with one decodable packet: data id (unshifted) `7 << 18 =
1835008`, registered with both a decoder and a buffer list; the decoder's
`decode_packet` result is `false` (no buffer filled). -/
def exC2 : OSt := mkState (wordsToBytes [1835010, 99]) [1835008] [1835008] [] noFullFn

/-- The empty, just-opened stream (already at EOF). -/
def exEOF : OSt := mkState [] [] [] [] noFullFn

/-- The packets one `read_packet` call examines, in order, each paired with
the packet counter value it is examined under: the sequential loads
(skipping unknown ids) up to and including the first packet whose data id
has a bound buffer list, or up to EOF.  The state is threaded exactly as
`read_packet` threads it; the loads never read the warning log, so the
enumerated packets are a function of the stream content and position. -/
def readTrace : Nat → OSt → List (Int × List Nat)
  | 0, _ => []
  | fuel + 1, s =>
    match loadSeq true s with
    | .error _ => []
    | .ok (none, _) => []
    | .ok (some packet, s1) =>
      let data_id := get_data_id (packet.headD 0) false
      if s1.missing_decoders.contains data_id then
        (s1.packet_id, packet) ::
          readTrace fuel { s1 with warnings := s1.warnings ++ [data_id] }
      else if s1.rbl_ids.contains data_id then
        [(s1.packet_id, packet)]
      else
        (s1.packet_id, packet) :: readTrace fuel s1

/-- The destination identifier (unshifted) of an examined packet. -/
def traceDataId (p : Int × List Nat) : Nat := get_data_id (p.2.headD 0) false

/-- Stream with one packet of the missing-decoder id `5 << 18 = 1310720`
followed by one usable two-word packet (id `7 << 18 = 1835008`, registered
with both a decoder and a buffer list). -/
def exC1b : OSt :=
  mkState (wordsToBytes [1310721, 1835010, 99]) [1835008] [1835008] [1310720] noFullFn

/-- The final `(result, state)` of a full `read_packet` call on `exC1b`. -/
def exC1bres : Bool × OSt :=
  (((read_packet 5 exC1b).toOption).getD none).getD (false, exC1b)

/-! ## Claim C3: random access and re-reads -/

/-- The words a sequential load returns when a packet starts at byte
offset `p` (header word, then short/long framing and the payload bytes) —
a pure function of the stream bytes and the offset. -/
def seqWordsAt (data : List Nat) (p : Nat) : Option (List Nat) :=
  let w := headerWordAt data p
  if is_short w then some [w]
  else
    let n_words := get_n_words w
    let payload := readBytes data (p + 4) ((n_words - 1) * 4)
    if (payload.length : Int) = ((n_words : Int) - 1) * 4 then
      some (w :: bytesToWords payload)
    else none

/-- Stream of two distinct two-word packets for the C3 counterexample and
witness (data id 1 shifted; payload words 5 and 7). -/
def exC3 : OSt := mkState (wordsToBytes [262146, 5, 262146, 7]) [] [] [] noFullFn

/-- The state after `load_packet(1)` on `exC3`. -/
def exC3s1 : OSt :=
  ((load_packet 10 (some 1) 0 false exC3).toOption.map Prod.snd).getD exC3

/-! ## Claim C4: decoder fill contract -/

/-- Number of rows `decode_packet` writes into channel `c`'s buffer: the
number of trigger indices whose channel is `c`. -/
def traceWriteCount (ev : FCIOEvent) (c : Nat) : Nat :=
  (List.range ev.num_traces).countP (fun idx => ev.trace_list.getD idx 0 == c)

/-! ## General facts about `load_packet_header` -/

theorem load_packet_header_ok_facts (s : OSt) (r : Option Nat) (s' : OSt)
    (h : load_packet_header s = .ok (r, s')) :
    s'.opened = s.opened ∧ s'.data = s.data ∧ s'.decoder_ids = s.decoder_ids ∧
    s'.rbl_ids = s.rbl_ids ∧ s'.missing_decoders = s.missing_decoders ∧
    s'.warnings = s.warnings ∧ s'.decoded = s.decoded ∧
    s'.any_full = s.any_full ∧ s'.decodeFn = s.decodeFn ∧
    (∃ t, s'.packet_locs = s.packet_locs ++ t ∧ t.length ≤ 1) ∧
    (r.isSome = true → s'.packet_id = s.packet_id + 1 ∧ s'.pos = s.pos + 4) ∧
    (r = none → s' = s ∧ s.data.length ≤ s.pos) := by
  simp only [load_packet_header] at h
  split at h
  · exact absurd h (by simp)
  · split at h
    · rename_i hn
      simp only [Except.ok.injEq, Prod.mk.injEq] at h
      obtain ⟨hr, hs⟩ := h
      subst hr
      have hlen : s.data.length ≤ s.pos := by
        simp only [readBytes, List.length_take, List.length_drop] at hn
        omega
      constructor
      · simp [← hs, hn]
      all_goals simp [← hs, hn, hlen]
    · split at h
      · exact absurd h (by simp)
      · split at h
        · split at h
          · exact absurd h (by simp)
          · split at h
            · exact absurd h (by simp)
            · rename_i hv
              simp only [Except.ok.injEq, Prod.mk.injEq] at h
              obtain ⟨hr, hs⟩ := h
              subst hr
              refine ⟨by simp [← hs], by simp [← hs], by simp [← hs], by simp [← hs],
                by simp [← hs], by simp [← hs], by simp [← hs], by simp [← hs],
                by simp [← hs], ⟨[], by simp [← hs]⟩, ?_, by simp⟩
              intro
              simp [← hs]
        · split at h
          · exact absurd h (by simp)
          · rename_i hl
            simp only [Except.ok.injEq, Prod.mk.injEq] at h
            obtain ⟨hr, hs⟩ := h
            subst hr
            refine ⟨by simp [← hs], by simp [← hs], by simp [← hs], by simp [← hs],
              by simp [← hs], by simp [← hs], by simp [← hs], by simp [← hs],
              by simp [← hs], ⟨[s.pos + 4 - 4], by simp [← hs]⟩, ?_, by simp⟩
            intro
            simp [← hs]

/-- C6: `load_packet_header` reads exactly 4 bytes: 0 bytes available means
EOF (`none` returned, no error, state untouched); 1–3 available bytes raise
a fatal error (stream truncated mid-header); a successful 4-byte read
increments the monotonic packet counter by exactly one. -/
theorem C6_load_packet_header_read_contract (s : OSt) (hop : s.opened = true) :
    (s.data.length ≤ s.pos → load_packet_header s = .ok (none, s)) ∧
    (1 ≤ s.data.length - s.pos → s.data.length - s.pos ≤ 3 →
      ∃ msg, load_packet_header s = .error msg) ∧
    (∀ w s', load_packet_header s = .ok (some w, s') →
      s'.packet_id = s.packet_id + 1) := by
  refine ⟨?_, ?_, ?_⟩
  · intro hlen
    obtain ⟨op, dat, pos, nbr, pid, locs, dec, rbl, mis, war, decd, af, fn⟩ := s
    simp only at hop hlen
    subst hop
    have h0 : readBytes dat pos 4 = [] := by
      simp only [readBytes]
      rw [List.drop_eq_nil_of_le hlen]
      simp
    simp [load_packet_header, h0]
  · intro h1 h3
    have hn : (readBytes s.data s.pos 4).length = s.data.length - s.pos := by
      simp only [readBytes, List.length_take, List.length_drop]
      omega
    have hne0 : ¬ ((readBytes s.data s.pos 4).length = 0) := by omega
    have hne4 : (readBytes s.data s.pos 4).length ≠ 4 := by omega
    exact ⟨"only got n bytes for packet header", by
      simp [load_packet_header, hop, hne0, hne4]⟩
  · intro w s' h
    exact ((load_packet_header_ok_facts s (some w) s' h).2.2.2.2.2.2.2.2.2.2.1
      rfl).1

/-- C6 witness: on a concrete open two-word stream, reading a header
succeeds and increments the packet counter by one. -/
theorem C6_load_packet_header_read_contract_witness :
    exC6.opened = true ∧ exC6res.packet_id = exC6.packet_id + 1 :=
  ⟨rfl, (C6_load_packet_header_read_contract exC6 rfl).2.2 262146 exC6res rfl⟩

/-! ## `skip_packet` -/

theorem exc_bind_ok {α β : Type} (a : α) (f : α → Except String β) :
    (Except.ok a >>= f) = f a := rfl

theorem exc_bind_error {α β : Type} (e : String) (f : α → Except String β) :
    ((Except.error e : Except String α) >>= f) = .error e := rfl

theorem seekRel_ok_facts (s : OSt) (off : Int) (s' : OSt)
    (h : seekRel s off = .ok s') :
    s'.opened = s.opened ∧ s'.data = s.data ∧ s'.n_bytes_read = s.n_bytes_read ∧
    s'.packet_id = s.packet_id ∧ s'.packet_locs = s.packet_locs ∧
    s'.decoder_ids = s.decoder_ids ∧ s'.rbl_ids = s.rbl_ids ∧
    s'.missing_decoders = s.missing_decoders ∧ s'.warnings = s.warnings ∧
    s'.decoded = s.decoded ∧ s'.any_full = s.any_full ∧
    s'.decodeFn = s.decodeFn := by
  simp only [seekRel] at h
  split at h
  · exact absurd h (by simp)
  · simp only [Except.ok.injEq] at h
    simp [← h]

theorem skip_packet_loop_spec (m : Nat) : ∀ (s b : _) (s' : OSt),
    skip_packet_loop m s = .ok (b, s') →
    s'.data = s.data ∧ s'.opened = s.opened ∧
    (∃ t, s'.packet_locs = s.packet_locs ++ t) ∧
    (b = true → s'.packet_id = s.packet_id + m) ∧
    (b = false → s'.data.length ≤ s'.pos) := by
  induction m with
  | zero =>
    intro s b s' h
    simp only [skip_packet_loop, Except.ok.injEq, Prod.mk.injEq] at h
    obtain ⟨hb, hs⟩ := h
    subst hs
    subst hb
    exact ⟨rfl, rfl, ⟨[], (List.append_nil _).symm⟩, fun _ => by simp,
      fun hbf => absurd hbf (by decide)⟩
  | succ n ih =>
    intro s b s' h
    simp only [skip_packet_loop] at h
    cases hh : load_packet_header s with
    | error e => rw [hh] at h; simp [exc_bind_error] at h
    | ok p =>
      obtain ⟨hOpt, s1⟩ := p
      rw [hh] at h
      simp only [exc_bind_ok] at h
      obtain ⟨f1, f2, _, _, _, _, _, _, _, ⟨t1, ht1, _⟩, hsome, hnone⟩ :=
        load_packet_header_ok_facts s hOpt s1 hh
      cases hOpt with
      | none =>
        dsimp only at h
        simp only [Except.ok.injEq, Prod.mk.injEq] at h
        obtain ⟨hb, hs⟩ := h
        subst hs
        obtain ⟨hs1, hlen⟩ := hnone rfl
        subst hs1 hb
        exact ⟨rfl, rfl, ⟨[], by simp⟩, by simp, fun _ => hlen⟩
      | some w =>
        dsimp only at h
        cases hsk : seekRel s1 ((get_n_words w - 1 : Int) * 4) with
        | error e => rw [hsk] at h; simp [exc_bind_error] at h
        | ok s2 =>
          rw [hsk] at h
          simp only [exc_bind_ok] at h
          obtain ⟨g1, g2, _, g4, g5, _, _, _, _, _, _, _⟩ :=
            seekRel_ok_facts s1 _ s2 hsk
          obtain ⟨hd, ho, ⟨t2, ht2⟩, hpt, hpf⟩ := ih s2 b s' h
          refine ⟨by rw [hd, g2, f2], by rw [ho, g1, f1],
            ⟨t1 ++ t2, by rw [ht2, g5, ht1, List.append_assoc]⟩, ?_, hpf⟩
          intro hb
          have := (hsome (by simp)).1
          rw [hpt hb, g4, this]
          omega

/-- C9: `skip_packet(n)` errors for every negative `n` (before any read);
`skip_packet(0)` returns `true` with the state untouched (no read); and
for `n ≥ 0` a `true` result means `n` headers were read (the packet counter
advanced by exactly `n`), while a `false` result means EOF was hit. -/
theorem C9_skip_packet_contract :
    (∀ (s : OSt) (n : Int), n < 0 → ∃ msg, skip_packet s n = .error msg) ∧
    (∀ s : OSt, s.opened = true → skip_packet s 0 = .ok (true, s)) ∧
    (∀ (s : OSt) (n : Int) (b : Bool) (s' : OSt), skip_packet s n = .ok (b, s') →
      s'.data = s.data ∧ (b = true → s'.packet_id = s.packet_id + n) ∧
      (b = false → s'.data.length ≤ s'.pos)) := by
  refine ⟨?_, ?_, ?_⟩
  · intro s n hneg
    cases hop : s.opened with
    | false => exact ⟨"self.in_stream is None", by simp [skip_packet, hop]⟩
    | true =>
      have hn : ¬ (0 ≤ n) := by omega
      exact ⟨"n must be a non-negative int", by simp [skip_packet, hop, hn]⟩
  · intro s hop
    simp [skip_packet, hop, skip_packet_loop]
  · intro s n b s' h
    simp only [skip_packet] at h
    split at h
    · simp at h
    · split at h
      · simp at h
      · rename_i hop hn
        obtain ⟨hd, _, _, hbt, hbf⟩ := skip_packet_loop_spec n.toNat s b s' h
        refine ⟨hd, ?_, hbf⟩
        intro hb
        rw [hbt hb]
        congr 1
        have h0 : 0 ≤ n := by simpa using hn
        omega

/-- C9 witness: concrete instances — negative count errors, zero count
returns `true` untouched, one skip advances the counter by one. -/
theorem C9_skip_packet_contract_witness :
    (∃ msg, skip_packet exC9 (-1) = .error msg) ∧
    skip_packet exC9 0 = .ok (true, exC9) ∧
    exC9s.packet_id = exC9.packet_id + 1 :=
  ⟨C9_skip_packet_contract.1 exC9 (-1) (by decide),
   C9_skip_packet_contract.2.1 exC9 rfl,
   (C9_skip_packet_contract.2.2 exC9 1 true exC9s rfl).2.1 rfl⟩

/-- Binding a pure `Except` value applies the continuation directly. -/
theorem exc_pure_bind {α β : Type} (a : α) (f : α → Except String β) :
    ((pure a : Except String α) >>= f) = f a := rfl

/-- C7: whenever the supplied index/whence pair resolves to a negative
absolute packet number (for whence = start, current, or end — the latter
after a successful full index build), `load_packet` rewinds the stream to
byte offset 0, resets the packet counter to −1, and returns no-packet
(`none`) without raising. -/
theorem C7_load_packet_negative_index_rewinds (s : OSt) (hop : s.opened = true)
    (fuel : Nat) (i : Int) :
    (i < 0 → load_packet fuel (some i) 0 false s =
      .ok (none, { s with pos := 0, packet_id := -1 })) ∧
    (i + s.packet_id - 1 < 0 → load_packet fuel (some i) 1 false s =
      .ok (none, { s with pos := 0, packet_id := -1 })) ∧
    (∀ s1, build_packet_locs fuel false s = .ok s1 →
      i + (s1.packet_locs.length : Int) - 2 < 0 →
      load_packet fuel (some i) 2 false s =
        .ok (none, { s1 with pos := 0, packet_id := -1 })) := by
  refine ⟨?_, ?_, ?_⟩
  · intro hi
    simp [load_packet, hop, exc_pure_bind, exc_bind_ok, hi]
  · intro hi
    simp [load_packet, hop, exc_pure_bind, exc_bind_ok, hi]
  · intro s1 hb hi
    simp [load_packet, hop, exc_pure_bind, exc_bind_ok, hb, hi]
    exact fun h2 => absurd h2 (by omega)

/-- C7 witness: `load_packet(index=-1, whence=0)` on a just-opened stream
rewinds to offset 0, resets the counter and returns no-packet. -/
theorem C7_load_packet_negative_index_rewinds_witness :
    load_packet 1 (some (-1)) 0 false exC7 =
      .ok (none, { exC7 with pos := 0, packet_id := -1 }) :=
  (C7_load_packet_negative_index_rewinds exC7 rfl 1 (-1)).1 (by decide)

/-- C8 counterexample: the probe accepts a stream whose claimed pad
`word0*4 - 8 - word1` is negative (the code computes the pad in `uint32`
wrap-around arithmetic, so the `pad < 0` rejection can never fire), and on
another stream it raises (`UnicodeDecodeError`) instead of returning a
boolean. -/
theorem C8_is_orca_stream_counterexample :
    is_orca_stream exC8wrap = .ok true ∧
    ((0 : Int) * 4 - 8 - 4294967287 < 0) ∧
    (is_orca_stream exC8bad).toOption = none :=
  ⟨rfl, by decide, rfl⟩

theorem probe_eqn (bs : List Nat) (hlen : 12 ≤ bs.length) :
    is_orca_stream bs =
      (if probeWord bs 0 &&& 0xFFFC0000 ≠ 0 then .ok false
       else if 3 < probePad bs then .ok false
       else
         match utf8Decode ((bs.drop 8).take 4) with
         | none => .error "UnicodeDecodeError"
         | some cs => .ok (cs == orcaTag)) := by
  have hl12 : (bs.take 12).length = 12 := by
    simp [List.length_take]
    omega
  have hg : ∀ i, i < 12 → (bs.take 12).getD i 0 = bs.getD i 0 := fun i hi => by
    simp [List.getD, List.getElem?_take, hi]
  have hdt : (bs.take 12).drop 8 = (bs.drop 8).take 4 := by
    rw [List.drop_take]
  simp only [is_orca_stream, probeWord, probePad, hl12, hdt, hg 0 (by norm_num),
    hg 1 (by norm_num), hg 2 (by norm_num), hg 3 (by norm_num),
    hg 4 (by norm_num), hg 5 (by norm_num), hg 6 (by norm_num),
    hg 7 (by norm_num), ne_eq, not_true, if_false]

/-- C8 amended: the probe returns `.ok true` exactly when the stream has at
least 12 bytes, the top 14 bits of word 0 are zero, the pad computed in
32-bit unsigned wrap-around arithmetic is at most 3, and bytes 8–11
UTF-8-decode to the tag; it raises (instead of returning a boolean) exactly
when the first three conditions hold but bytes 8–11 are not valid UTF-8;
and it returns false on the 12-byte buffer
`[0x00030005, 0x00000001, 0x3C3F786D]`. -/
theorem C8_is_orca_stream_amended (bs : List Nat) :
    (is_orca_stream bs = .ok true ↔
      (12 ≤ bs.length ∧ probeWord bs 0 &&& 0xFFFC0000 = 0 ∧ probePad bs ≤ 3 ∧
       utf8Decode ((bs.drop 8).take 4) = some orcaTag)) ∧
    ((∃ msg, is_orca_stream bs = .error msg) ↔
      (12 ≤ bs.length ∧ probeWord bs 0 &&& 0xFFFC0000 = 0 ∧ probePad bs ≤ 3 ∧
       utf8Decode ((bs.drop 8).take 4) = none)) ∧
    is_orca_stream (wordsToBytes [0x00030005, 0x00000001, 0x3C3F786D]) =
      .ok false := by
  refine ⟨?_, ?_, rfl⟩ <;>
  · by_cases hlen : 12 ≤ bs.length
    · rw [probe_eqn bs hlen]
      by_cases hm : probeWord bs 0 &&& 0xFFFC0000 = 0
      · by_cases hp : probePad bs ≤ 3
        · cases hdec : utf8Decode ((bs.drop 8).take 4) with
          | none => simp [hm, hp, Nat.not_lt.mpr hp, hdec, hlen]
          | some cs => simp [hm, hp, Nat.not_lt.mpr hp, hdec, hlen, beq_iff_eq]
        · simp [hm, hp, Nat.lt_of_not_le (fun hc => hp hc), hlen]
      · simp [hm, hlen]
    · have hl12 : (bs.take 12).length ≠ 12 := by
        simp [List.length_take]
        omega
      simp [is_orca_stream, hl12, hlen]

theorem load_packet_header_some (s : OSt) (w : Nat) (s' : OSt)
    (h : load_packet_header s = .ok (some w, s')) :
    w = headerWordAt s.data s.pos ∧ s.pos + 4 ≤ s.data.length ∧
    s'.pos = s.pos + 4 ∧ s'.packet_id = s.packet_id + 1 ∧
    ((s.packet_id + 1 < (s.packet_locs.length : Int) ∧
        s'.packet_locs = s.packet_locs ∧
        pyIdx s.packet_locs (s.packet_id + 1) = some s.pos) ∨
      ((s.packet_locs.length : Int) = s.packet_id + 1 ∧
        s'.packet_locs = s.packet_locs ++ [s.pos])) := by
  simp only [load_packet_header] at h
  split at h
  · simp at h
  · split at h
    · simp at h
    · split at h
      · simp at h
      · rename_i hne0 hn4
        have hn : (readBytes s.data s.pos 4).length = 4 := by
          rcases Nat.lt_or_ge (readBytes s.data s.pos 4).length 4 with hlt | hge
          · omega
          · have : (readBytes s.data s.pos 4).length ≤ 4 := by
              simp [readBytes, List.length_take]
            omega
        have hlen : s.pos + 4 ≤ s.data.length := by
          simp only [readBytes, List.length_take, List.length_drop] at hn
          omega
        split at h
        · rename_i hlt
          split at h
          · simp at h
          · split at h
            · simp at h
            · rename_i v hv hveq
              simp only [Except.ok.injEq, Prod.mk.injEq, Option.some.injEq] at h
              obtain ⟨hw, hs⟩ := h
              subst hw
              have hvpos : v = s.pos := by omega
              subst hvpos
              exact ⟨rfl, hlen, by simp [← hs], by simp [← hs],
                Or.inl ⟨by simpa using hlt, by simp [← hs], by simpa using hv⟩⟩
        · rename_i hge
          split at h
          · simp at h
          · rename_i heq
            simp only [Except.ok.injEq, Prod.mk.injEq, Option.some.injEq] at h
            obtain ⟨hw, hs⟩ := h
            subst hw
            refine ⟨rfl, hlen, by simp [← hs], by simp [← hs], Or.inr ⟨?_, ?_⟩⟩
            · omega
            · simp [← hs]

theorem seekRel_ok_pos (s : OSt) (off : Int) (s' : OSt)
    (h : seekRel s off = .ok s') : s'.pos = ((s.pos : Int) + off).toNat := by
  simp only [seekRel] at h
  split at h
  · simp at h
  · simp only [Except.ok.injEq] at h
    simp [← h]

theorem header_preserves_locsInv (s : OSt) (r : Option Nat) (s' : OSt)
    (hInv : locsInv s) (h : load_packet_header s = .ok (r, s')) :
    locsInv s' ∧ ∃ t, s'.packet_locs = s.packet_locs ++ t ∧ t.length ≤ 1 := by
  obtain ⟨hch, hpid, hcur⟩ := hInv
  cases r with
  | none =>
    obtain ⟨hs, _⟩ :=
      (load_packet_header_ok_facts s none s' h).2.2.2.2.2.2.2.2.2.2.2 rfl
    subst hs
    exact ⟨⟨hch, hpid, hcur⟩, ⟨[], by simp⟩⟩
  | some w =>
    obtain ⟨hw, hlen, hpos, hpid', hcase⟩ := load_packet_header_some s w s' h
    rcases hcase with ⟨hlt, hlocs, hpy⟩ | ⟨heq, hlocs⟩
    · refine ⟨⟨hlocs ▸ hch, by omega, ?_⟩, ⟨[], by simp [hlocs]⟩⟩
      intro hne hlen2
      rw [hlocs] at hlen2 hne ⊢
      rw [hpid'] at hlen2
      have hge0 : ¬ (s.packet_id + 1 < 0) := by omega
      simp only [pyIdx, if_neg hge0] at hpy
      have ht : (s.packet_id + 1).toNat = s.packet_locs.length - 1 := by omega
      rw [ht, List.get?_eq_getElem?] at hpy
      have hlast : s.packet_locs.getLastD 0 = s.pos := by
        rw [List.getLastD_eq_getLast?, List.getLast?_eq_getElem?, hpy]
        rfl
      rw [hlast, hpos]
    · have hlast2 : (s.packet_locs ++ [s.pos]).getLastD 0 = s.pos := by
        simp [List.getLastD_eq_getLast?]
      refine ⟨⟨?_, by omega, ?_⟩, ⟨[s.pos], by simp [hlocs]⟩⟩
      · rw [hlocs, List.chain'_append]
        refine ⟨hch, by simp, ?_⟩
        intro x hx y hy
        simp only [List.head?_cons, Option.mem_def, Option.some.injEq] at hy
        subst hy
        have hne : s.packet_locs ≠ [] := by
          intro hnil
          rw [hnil] at hx
          simp at hx
        have hlastx : s.packet_locs.getLastD 0 = x := by
          rw [List.getLastD_eq_getLast?]
          rw [List.getLast?_eq_getLast _ hne] at hx ⊢
          simp only [Option.mem_def, Option.some.injEq] at hx
          simp [hx]
        have := hcur hne (by omega)
        omega
      · intro _ _
        rw [hlocs, hlast2, hpos]

theorem skip_loop_preserves_locsInv (m : Nat) : ∀ (s : OSt) (b : Bool) (s' : OSt),
    locsInv s → goodData s.data → skip_packet_loop m s = .ok (b, s') →
    locsInv s' ∧ ∃ t, s'.packet_locs = s.packet_locs ++ t := by
  induction m with
  | zero =>
    intro s b s' hI _ h
    simp only [skip_packet_loop, Except.ok.injEq, Prod.mk.injEq] at h
    obtain ⟨hb, hs⟩ := h
    subst hs
    exact ⟨hI, ⟨[], by simp⟩⟩
  | succ n ih =>
    intro s b s' hI hg h
    simp only [skip_packet_loop] at h
    cases hh : load_packet_header s with
    | error e => rw [hh] at h; simp [exc_bind_error] at h
    | ok p =>
      obtain ⟨hOpt, s1⟩ := p
      rw [hh] at h
      simp only [exc_bind_ok] at h
      obtain ⟨hI1, t1, ht1, _⟩ := header_preserves_locsInv s hOpt s1 hI hh
      have hd1 : s1.data = s.data := (load_packet_header_ok_facts s hOpt s1 hh).2.1
      cases hOpt with
      | none =>
        dsimp only at h
        simp only [Except.ok.injEq, Prod.mk.injEq] at h
        obtain ⟨hb, hs⟩ := h
        subst hs
        exact ⟨hI1, ⟨t1, ht1⟩⟩
      | some w =>
        dsimp only at h
        obtain ⟨hw, hlen, hpos1, _, _⟩ := load_packet_header_some s w s1 hh
        have hnw : 1 ≤ get_n_words w := hw ▸ hg s.pos hlen
        cases hsk : seekRel s1 ((get_n_words w - 1 : Int) * 4) with
        | error e => rw [hsk] at h; simp [exc_bind_error] at h
        | ok s2 =>
          rw [hsk] at h
          simp only [exc_bind_ok] at h
          obtain ⟨g1, g2, _, g4, g5, _, _, _, _, _, _, _⟩ :=
            seekRel_ok_facts s1 _ s2 hsk
          have hpos2 : s1.pos ≤ s2.pos := by
            rw [seekRel_ok_pos s1 _ s2 hsk]
            omega
          have hI2 : locsInv s2 := by
            obtain ⟨c1, c2, c3⟩ := hI1
            refine ⟨g5 ▸ c1, g4 ▸ c2, ?_⟩
            intro hne hl2
            rw [g5] at hne hl2 ⊢
            rw [g4] at hl2
            have := c3 hne hl2
            omega
          have hg2 : goodData s2.data := by
            rw [g2, hd1]
            exact hg
          obtain ⟨hI', t2, ht2⟩ := ih s2 b s' hI2 hg2 h
          exact ⟨hI', ⟨t1 ++ t2, by rw [ht2, g5, ht1, List.append_assoc]⟩⟩

/-- C5 counterexample to the claim as stated: on the 4-byte stream
`[0,0,0,0]` (one header word declaring zero packet words) two
`skip_packet` calls record the offset index `[0, 0]`, which is not
strictly increasing, and no error is raised. -/
theorem C5_packet_locs_counterexample :
    ((skip_packet (mkState [0, 0, 0, 0] [] [] [] noFullFn) 2).toOption.map
        (fun p => p.2.packet_locs)) = some [0, 0] ∧
    ¬ List.Chain' (· < ·) [0, 0] :=
  ⟨rfl, fun hch => absurd (List.chain'_cons.mp hch).1 (by omega)⟩

/-- C5 amended: under the stream invariant (`locsInv`) and provided every
word read as a packet header declares at least one packet word
(`goodData` — a zero-length packet makes `skip_packet` seek backwards and
record a duplicate offset, as the counterexample shows), entry `i` of
`packet_locs` stays the byte offset of packet `i`: `load_packet_header`
only appends (at most one offset, never modifying recorded entries) and
preserves strict monotonicity, as does `skip_packet`; a recomputed offset
disagreeing with the cached value raises a fatal error, and an append that
would skip a packet number raises a fatal error. -/
theorem C5_packet_locs_invariant :
    (∀ (s : OSt) (r : Option Nat) (s' : OSt), locsInv s →
       load_packet_header s = .ok (r, s') →
       locsInv s' ∧ ∃ t, s'.packet_locs = s.packet_locs ++ t ∧ t.length ≤ 1) ∧
    (∀ (s : OSt) (n : Int) (b : Bool) (s' : OSt), locsInv s → goodData s.data →
       skip_packet s n = .ok (b, s') →
       List.Chain' (· < ·) s'.packet_locs ∧
       ∃ t, s'.packet_locs = s.packet_locs ++ t) ∧
    (∀ (s : OSt) (v : Nat), s.opened = true → s.pos + 4 ≤ s.data.length →
       s.packet_id + 1 < (s.packet_locs.length : Int) →
       pyIdx s.packet_locs (s.packet_id + 1) = some v → v ≠ s.pos →
       ∃ msg, load_packet_header s = .error msg) ∧
    (∀ s : OSt, s.opened = true → s.pos + 4 ≤ s.data.length →
       (s.packet_locs.length : Int) < s.packet_id + 1 →
       ∃ msg, load_packet_header s = .error msg) := by
  refine ⟨header_preserves_locsInv, ?_, ?_, ?_⟩
  · intro s n b s' hI hg h
    simp only [skip_packet] at h
    split at h
    · simp at h
    · split at h
      · simp at h
      · obtain ⟨hI', ht⟩ := skip_loop_preserves_locsInv n.toNat s b s' hI hg h
        exact ⟨hI'.1, ht⟩
  · intro s v hop hlen hlt hpy hv
    have hn4 : (readBytes s.data s.pos 4).length = 4 := by
      simp only [readBytes, List.length_take, List.length_drop]
      omega
    refine ⟨"filepos for packet was not what was expected", ?_⟩
    have hfp : s.pos + 4 - 4 = s.pos := by omega
    simp [load_packet_header, hop, hn4, hfp, hlt, hpy, hv]
  · intro s hop hlen hgt
    have hn4 : (readBytes s.data s.pos 4).length = 4 := by
      simp only [readBytes, List.length_take, List.length_drop]
      omega
    refine ⟨"loaded packet after wrong packet", ?_⟩
    have h1 : ¬ (s.packet_id + 1 < (s.packet_locs.length : Int)) := by omega
    have h2 : (s.packet_locs.length : Int) ≠ s.packet_id + 1 := by omega
    simp [load_packet_header, hop, hn4, h1, h2]

/-- C5 witness: on a concrete well-formed stream, one `skip_packet` call
preserves strict monotonicity and only appends to the index. -/
theorem C5_packet_locs_invariant_witness :
    List.Chain' (· < ·) exC5s.packet_locs ∧
    ∃ t, exC5s.packet_locs = exC5g.packet_locs ++ t := by
  have hgd : goodData exC5g.data := by
    intro p hp
    have hl : exC5g.data.length = 8 := rfl
    rw [hl] at hp
    have hp4 : p ≤ 4 := by omega
    interval_cases p <;> decide
  exact C5_packet_locs_invariant.2.1 exC5g 1 true exC5s
    (by refine ⟨by decide, by decide, ?_⟩; intro hne; simp [exC5g, mkState] at hne)
    hgd rfl

/-! ## `loadSeq` and `read_packet` -/

theorem load_packet_seq_eq (fuel : Nat) (w : Int) (su : Bool) (s : OSt) :
    load_packet fuel none w su s =
      (if s.opened then loadSeq su s else .error "self.in_stream is None") := by
  cases hop : s.opened <;> simp [load_packet, hop]

theorem loadSeq_facts (su : Bool) (s : OSt) (r : Option (List Nat)) (s' : OSt)
    (h : loadSeq su s = .ok (r, s')) :
    s'.opened = s.opened ∧ s'.data = s.data ∧ s'.decoder_ids = s.decoder_ids ∧
    s'.rbl_ids = s.rbl_ids ∧ s'.missing_decoders = s.missing_decoders ∧
    s'.warnings = s.warnings ∧ s'.decoded = s.decoded ∧
    s'.any_full = s.any_full ∧ s'.decodeFn = s.decodeFn ∧
    (∀ ws, r = some ws → s'.packet_id = s.packet_id + 1 ∧ ws ≠ []) := by
  simp only [loadSeq] at h
  cases hh : load_packet_header s with
  | error e => rw [hh] at h; simp [exc_bind_error] at h
  | ok p =>
    obtain ⟨hOpt, s1⟩ := p
    rw [hh] at h
    simp only [exc_bind_ok] at h
    obtain ⟨f1, f2, f3, f4, f5, f6, f7, f8, f9, _, hsome, hnone⟩ :=
      load_packet_header_ok_facts s hOpt s1 hh
    cases hOpt with
    | none =>
      dsimp only at h
      simp only [Except.ok.injEq, Prod.mk.injEq] at h
      obtain ⟨hr, hs⟩ := h
      obtain ⟨hs1, _⟩ := hnone rfl
      subst hs
      subst hs1
      exact ⟨rfl, rfl, rfl, rfl, rfl, rfl, rfl, rfl, rfl,
        fun ws hws => absurd hws.symm (by simp [← hr])⟩
    | some w =>
      dsimp only at h
      have hpid := (hsome rfl).1
      split at h
      · simp only [Except.ok.injEq, Prod.mk.injEq] at h
        obtain ⟨hr, hs⟩ := h
        subst hs
        refine ⟨f1, f2, f3, f4, f5, f6, f7, f8, f9, fun ws hws => ⟨hpid, ?_⟩⟩
        rw [← hr] at hws
        simp only [Option.some.injEq] at hws
        simp [← hws]
      · split at h
        · cases hsk : seekRel s1 ((get_n_words w - 1 : Int) * 4) with
          | error e => rw [hsk] at h; simp [exc_bind_error] at h
          | ok s2 =>
            rw [hsk] at h
            simp only [exc_bind_ok, Except.ok.injEq, Prod.mk.injEq] at h
            obtain ⟨hr, hs⟩ := h
            obtain ⟨g1, g2, _, g4, _, g6, g7, g8, g9, g10, g11, g12⟩ :=
              seekRel_ok_facts s1 _ s2 hsk
            subst hs
            refine ⟨g1.trans f1, g2.trans f2, g6.trans f3, g7.trans f4,
              g8.trans f5, g9.trans f6, g10.trans f7, g11.trans f8,
              g12.trans f9, fun ws hws => ⟨g4.trans hpid, ?_⟩⟩
            rw [← hr] at hws
            simp only [Option.some.injEq] at hws
            simp [← hws]
        · split at h <;>
          · simp only [Except.ok.injEq, Prod.mk.injEq] at h
            obtain ⟨hr, hs⟩ := h
            refine ⟨by simp [← hs, f1], by simp [← hs, f2], by simp [← hs, f3],
              by simp [← hs, f4], by simp [← hs, f5], by simp [← hs, f6],
              by simp [← hs, f7], by simp [← hs, f8], by simp [← hs, f9],
              fun ws hws => ⟨by simp [← hs, hpid], ?_⟩⟩
            rw [← hr] at hws
            first
            | (simp only [Option.some.injEq] at hws
               simp [← hws])
            | simp at hws

theorem load_packet_header_eof (s : OSt) (hop : s.opened = true)
    (hlen : s.data.length ≤ s.pos) : load_packet_header s = .ok (none, s) := by
  obtain ⟨op, dat, pos, nbr, pid, locs, dec, rbl, mis, war, decd, af, fn⟩ := s
  simp only at hop hlen
  subst hop
  have h0 : readBytes dat pos 4 = [] := by
    simp only [readBytes]
    rw [List.drop_eq_nil_of_le hlen]
    simp
  simp [load_packet_header, h0]

theorem read_packet_spec (fuel : Nat) : ∀ (s : OSt) (b : Bool) (s' : OSt),
    read_packet fuel s = .ok (some (b, s')) →
    s'.opened = s.opened ∧ s'.data = s.data ∧
    s'.missing_decoders = s.missing_decoders ∧ s'.rbl_ids = s.rbl_ids ∧
    s'.decoder_ids = s.decoder_ids ∧ s'.decodeFn = s.decodeFn ∧
    (∃ w, s'.warnings = s.warnings ++ w ∧ ∀ id ∈ w, id ∈ s.missing_decoders) ∧
    (∃ d, s'.decoded = s.decoded ++ d ∧ d.length ≤ 1 ∧
      (b = true ↔ d ≠ []) ∧
      ∀ e ∈ d, e.2.1 ∈ s.rbl_ids ∧ e.2.1 ∉ s.missing_decoders ∧
        s'.any_full = (s.any_full || e.2.2)) ∧
    (b = false → s'.any_full = s.any_full) := by
  induction fuel with
  | zero =>
    intro s b s' h
    simp [read_packet] at h
  | succ n ih =>
    intro s b s' h
    simp only [read_packet, load_packet_seq_eq] at h
    cases hop : s.opened with
    | false => rw [hop] at h; simp [exc_bind_error] at h
    | true =>
      rw [hop] at h
      simp only [if_true] at h
      cases hls : loadSeq true s with
      | error e => rw [hls] at h; simp [exc_bind_error] at h
      | ok p =>
        obtain ⟨pOpt, s1⟩ := p
        rw [hls] at h
        simp only [exc_bind_ok] at h
        obtain ⟨f1, f2, f3, f4, f5, f6, f7, f8, f9, _⟩ :=
          loadSeq_facts true s pOpt s1 hls
        cases pOpt with
        | none =>
          dsimp only at h
          simp only [Except.ok.injEq, Option.some.injEq, Prod.mk.injEq] at h
          obtain ⟨hb, hs⟩ := h
          subst hs
          subst hb
          exact ⟨f1.trans hop, f2, f5, f4, f3, f9, ⟨[], by simp [f6], by simp⟩,
            ⟨[], by simp [f7], by simp, by simp, by simp⟩, fun _ => f8⟩
        | some packet =>
          dsimp only at h
          split at h
          · rename_i hmiss
            obtain ⟨e1, e2, e3, e4, e5, e6, ⟨w2, hw2, hw2m⟩,
                ⟨d2, hd2, hd2l, hd2iff, hd2p⟩, hbf⟩ := ih _ b s' h
            have hmem : get_data_id (packet.headD 0) false ∈
                s.missing_decoders := by
              rw [← f5]
              simpa using hmiss
            refine ⟨e1.trans (f1.trans hop), e2.trans f2, e3.trans f5,
              e4.trans f4, e5.trans f3, e6.trans f9, ?_, ?_, ?_⟩
            · refine ⟨get_data_id (packet.headD 0) false :: w2, ?_, ?_⟩
              · rw [hw2]
                simp [f6]
              · intro id hid
                rcases List.mem_cons.mp hid with hh1 | hh2
                · rw [hh1]; exact hmem
                · have := hw2m id hh2
                  simp only [f5] at this
                  exact this
            · refine ⟨d2, ?_, hd2l, hd2iff, ?_⟩
              · rw [hd2]
                simp [f7]
              · intro e he
                obtain ⟨p1, p2, p3⟩ := hd2p e he
                simp only [f4] at p1
                simp only [f5] at p2
                simp only [f8] at p3
                exact ⟨p1, p2, p3⟩
            · intro hbf2
              rw [hbf hbf2]
              simp [f8]
          · split at h
            · rename_i hmiss hrbl
              simp only [Except.ok.injEq, Option.some.injEq, Prod.mk.injEq] at h
              obtain ⟨hb, hs⟩ := h
              subst hb
              have hmem : get_data_id (packet.headD 0) false ∈ s.rbl_ids := by
                rw [← f4]
                simpa using hrbl
              have hnmem : get_data_id (packet.headD 0) false ∉
                  s.missing_decoders := by
                rw [← f5]
                simpa using hmiss
              refine ⟨by simp [← hs, f1, hop], by simp [← hs, f2], by simp [← hs, f5],
                by simp [← hs, f4], by simp [← hs, f3], by simp [← hs, f9],
                ⟨[], by simp [← hs, f6], by simp⟩, ?_, ?_⟩
              · refine ⟨[(s1.packet_id, get_data_id (packet.headD 0) false,
                  s1.decodeFn (get_data_id (packet.headD 0) false)
                    s1.packet_id packet)], ?_, by simp, by simp, ?_⟩
                · rw [← hs]
                  simp [f7]
                · intro e he
                  simp only [List.mem_singleton] at he
                  subst he
                  exact ⟨hmem, hnmem, by simp [← hs, f8]⟩
              · intro hbf
                exact absurd hbf (by simp)
            · obtain ⟨e1, e2, e3, e4, e5, e6, ⟨w2, hw2, hw2m⟩,
                  ⟨d2, hd2, hd2l, hd2iff, hd2p⟩, hbf⟩ := ih _ b s' h
              refine ⟨e1.trans (f1.trans hop), e2.trans f2, e3.trans f5,
                e4.trans f4, e5.trans f3, e6.trans f9,
                ⟨w2, by rw [hw2, f6], fun id hid => f5 ▸ hw2m id hid⟩,
                ⟨d2, by rw [hd2, f7], hd2l, hd2iff, ?_⟩, ?_⟩
              · intro e he
                obtain ⟨p1, p2, p3⟩ := hd2p e he
                exact ⟨f4 ▸ p1, f5 ▸ p2, f8 ▸ p3⟩
              · intro hbf2
                rw [hbf hbf2]
                exact f8

theorem read_packet_eof (fuel : Nat) (s : OSt) (hop : s.opened = true)
    (hlen : s.data.length ≤ s.pos) :
    read_packet (fuel + 1) s = .ok (some (false, s)) := by
  simp [read_packet, load_packet_seq_eq, hop, loadSeq,
    load_packet_header_eof s hop hlen, exc_bind_ok]

theorem countFilterEq (p : Nat → Bool) (a : Nat) (hp : p a = true) :
    ∀ l : List Nat, (l.filter p).count a = l.count a := by
  intro l
  induction l with
  | nil => rfl
  | cons x xs ih =>
    cases hx : p x with
    | true => simp [List.filter_cons, hx, List.count_cons, ih]
    | false =>
      have hne : ¬ x = a := by
        intro he
        rw [he, hp] at hx
        exact absurd hx (by simp)
      simp [List.filter_cons, hx, List.count_cons, ih, hne]

theorem read_packet_trace_spec (fuel : Nat) : ∀ (s : OSt) (b : Bool) (s' : OSt),
    read_packet fuel s = .ok (some (b, s')) →
    s'.warnings = s.warnings ++
      ((readTrace fuel s).map traceDataId).filter (s.missing_decoders.contains ·) ∧
    (b = true → ∃ pre q, readTrace fuel s = pre ++ [q] ∧
      (∀ p ∈ pre, traceDataId p ∈ s.missing_decoders ∨ traceDataId p ∉ s.rbl_ids) ∧
      traceDataId q ∉ s.missing_decoders ∧ traceDataId q ∈ s.rbl_ids ∧
      s'.decoded = s.decoded ++
        [(q.1, traceDataId q, s.decodeFn (traceDataId q) q.1 q.2)]) ∧
    (b = false →
      (∀ p ∈ readTrace fuel s,
        traceDataId p ∈ s.missing_decoders ∨ traceDataId p ∉ s.rbl_ids) ∧
      s'.decoded = s.decoded) := by
  induction fuel with
  | zero =>
    intro s b s' h
    simp [read_packet] at h
  | succ n ih =>
    intro s b s' h
    simp only [read_packet, load_packet_seq_eq] at h
    cases hop : s.opened with
    | false => rw [hop] at h; simp [exc_bind_error] at h
    | true =>
      rw [hop] at h
      simp only [if_true] at h
      cases hls : loadSeq true s with
      | error e => rw [hls] at h; simp [exc_bind_error] at h
      | ok p =>
        obtain ⟨pOpt, s1⟩ := p
        rw [hls] at h
        simp only [exc_bind_ok] at h
        obtain ⟨f1, f2, f3, f4, f5, f6, f7, f8, f9, _⟩ :=
          loadSeq_facts true s pOpt s1 hls
        cases pOpt with
        | none =>
          dsimp only at h
          simp only [Except.ok.injEq, Option.some.injEq, Prod.mk.injEq] at h
          obtain ⟨hb, hs⟩ := h
          subst hs
          subst hb
          refine ⟨by simp [readTrace, hls, f6], ?_, ?_⟩
          · intro hbt
            exact absurd hbt (by simp)
          · intro _
            exact ⟨by simp [readTrace, hls], f7⟩
        | some packet =>
          dsimp only at h
          split at h
          · rename_i hmiss
            set s2 : OSt := { s1 with warnings :=
                s1.warnings ++ [get_data_id (packet.headD 0) false] } with hs2
            have htr : readTrace (n + 1) s =
                (s1.packet_id, packet) :: readTrace n s2 := by
              simp only [readTrace, hls]
              rw [if_pos hmiss]
            have g5 : s2.missing_decoders = s.missing_decoders := by
              rw [hs2]; exact f5
            have g4 : s2.rbl_ids = s.rbl_ids := by
              rw [hs2]; exact f4
            have g6 : s2.warnings =
                s.warnings ++ [get_data_id (packet.headD 0) false] := by
              rw [hs2]
              dsimp only
              rw [f6]
            have g7 : s2.decoded = s.decoded := by
              rw [hs2]; exact f7
            have g9 : s2.decodeFn = s.decodeFn := by
              rw [hs2]; exact f9
            have hc : s.missing_decoders.contains
                (get_data_id (packet.headD 0) false) = true := by
              rw [← f5]; exact hmiss
            have hmem : get_data_id (packet.headD 0) false ∈
                s.missing_decoders := by
              simpa using hc
            obtain ⟨ihw, ihT, ihF⟩ := ih s2 b s' h
            rw [g6, g5] at ihw
            rw [g5, g4, g7, g9] at ihT
            rw [g5, g4, g7] at ihF
            refine ⟨?_, ?_, ?_⟩
            · rw [htr, ihw]
              simp [traceDataId, List.filter_cons, List.append_assoc]
              rw [if_pos (by simpa using hmem)]
            · intro hbt
              obtain ⟨pre, q, hsp, hpre, hq1, hq2, hdec⟩ := ihT hbt
              refine ⟨(s1.packet_id, packet) :: pre, q, ?_, ?_, hq1, hq2, hdec⟩
              · rw [htr, hsp]
                exact (List.cons_append _ _ _).symm
              · intro p hp
                rcases List.mem_cons.mp hp with h1 | h2
                · rw [h1]
                  exact Or.inl (by simpa [traceDataId] using hmem)
                · exact hpre p h2
            · intro hbf
              obtain ⟨hall, hdec⟩ := ihF hbf
              refine ⟨?_, hdec⟩
              intro p hp
              rw [htr] at hp
              rcases List.mem_cons.mp hp with h1 | h2
              · rw [h1]
                exact Or.inl (by simpa [traceDataId] using hmem)
              · exact hall p h2
          · split at h
            · rename_i hmiss hrbl
              have htr : readTrace (n + 1) s = [(s1.packet_id, packet)] := by
                simp only [readTrace, hls]
                rw [if_neg hmiss, if_pos hrbl]
              simp only [Except.ok.injEq, Option.some.injEq, Prod.mk.injEq] at h
              obtain ⟨hb, hs⟩ := h
              subst hb
              have hcf : s.missing_decoders.contains
                  (get_data_id (packet.headD 0) false) = false := by
                rw [← f5]
                simpa using hmiss
              have hnmem : get_data_id (packet.headD 0) false ∉
                  s.missing_decoders := by
                simpa using hcf
              have hrmem : get_data_id (packet.headD 0) false ∈ s.rbl_ids := by
                rw [← f4]
                simpa using hrbl
              refine ⟨?_, ?_, ?_⟩
              · rw [htr]
                simp [← hs, traceDataId, List.filter_cons, f6]
                simpa using hnmem
              · intro _
                refine ⟨[], (s1.packet_id, packet), ?_, ?_, ?_, ?_, ?_⟩
                · rw [htr]
                  rfl
                · simp
                · show get_data_id (packet.headD 0) false ∉ s.missing_decoders
                  exact hnmem
                · show get_data_id (packet.headD 0) false ∈ s.rbl_ids
                  exact hrmem
                · rw [← hs]
                  simp [traceDataId, f7, f9]
              · intro hbf
                exact absurd hbf (by simp)
            · rename_i hmiss hrbl
              have htr : readTrace (n + 1) s =
                  (s1.packet_id, packet) :: readTrace n s1 := by
                simp only [readTrace, hls]
                rw [if_neg hmiss, if_neg hrbl]
              have hcf : s.missing_decoders.contains
                  (get_data_id (packet.headD 0) false) = false := by
                rw [← f5]
                simpa using hmiss
              have hnmiss : get_data_id (packet.headD 0) false ∉
                  s.missing_decoders := by
                simpa using hcf
              have hrn : get_data_id (packet.headD 0) false ∉ s.rbl_ids := by
                rw [← f4]
                simpa using hrbl
              obtain ⟨ihw, ihT, ihF⟩ := ih s1 b s' h
              rw [f6, f5] at ihw
              rw [f5, f4, f7, f9] at ihT
              rw [f5, f4, f7] at ihF
              refine ⟨?_, ?_, ?_⟩
              · rw [htr, ihw]
                simp [traceDataId, List.filter_cons]
                rw [if_neg (by simpa using hnmiss)]
              · intro hbt
                obtain ⟨pre, q, hsp, hpre, hq1, hq2, hdec⟩ := ihT hbt
                refine ⟨(s1.packet_id, packet) :: pre, q, ?_, ?_, hq1, hq2, hdec⟩
                · rw [htr, hsp]
                  exact (List.cons_append _ _ _).symm
                · intro p hp
                  rcases List.mem_cons.mp hp with h1 | h2
                  · rw [h1]
                    exact Or.inr (by simpa [traceDataId] using hrn)
                  · exact hpre p h2
              · intro hbf
                obtain ⟨hall, hdec⟩ := ihF hbf
                refine ⟨?_, hdec⟩
                intro p hp
                rw [htr] at hp
                rcases List.mem_cons.mp hp with h1 | h2
                · rw [h1]
                  exact Or.inr (by simpa [traceDataId] using hrn)
                · exact hall p h2

/-- C1 counterexample: one `read_packet` stream read over two packets of the
same missing-decoder id logs the missing-implementation warning twice for
that id — not at most once. -/
theorem C1_missing_decoder_counterexample :
    ((read_packet 5 exC1).toOption.map
        (Option.map (fun p => p.2.warnings))) = some (some [1310720, 1310720]) ∧
    ¬ (([1310720, 1310720] : List Nat).count 1310720 ≤ 1) :=
  ⟨rfl, by decide⟩

/-- C1 amended: over a whole `read_packet` call, the recorded missing set
never changes and the appended warning log is exactly the missing-decoder
ids among the packets the call examined (`readTrace`), kept in order — so
the missing-implementation warning is logged once per examined packet
carrying such an id, and an id carried by n examined packets is warned n
times, not at most once; every examined packet before the last has an id
that is either missing or has no bound buffer list and is never decoded;
and when the call returns `true` the last examined packet's id has a
bound buffer list, is not missing, and that packet is the one decoded;
in particular an examined packet with a usable id forces a `true` return. -/
theorem C1_missing_decoder_warn_and_skip (fuel : Nat) (s : OSt) (b : Bool)
    (s' : OSt) (h : read_packet fuel s = .ok (some (b, s'))) :
    s'.missing_decoders = s.missing_decoders ∧
    s'.warnings = s.warnings ++
      ((readTrace fuel s).map traceDataId).filter (s.missing_decoders.contains ·) ∧
    (∀ id ∈ s.missing_decoders,
      s'.warnings.count id =
        s.warnings.count id + ((readTrace fuel s).map traceDataId).count id) ∧
    (b = true → ∃ pre q, readTrace fuel s = pre ++ [q] ∧
      (∀ p ∈ pre, traceDataId p ∈ s.missing_decoders ∨ traceDataId p ∉ s.rbl_ids) ∧
      traceDataId q ∉ s.missing_decoders ∧ traceDataId q ∈ s.rbl_ids ∧
      s'.decoded = s.decoded ++
        [(q.1, traceDataId q, s.decodeFn (traceDataId q) q.1 q.2)]) ∧
    (b = false →
      (∀ p ∈ readTrace fuel s,
        traceDataId p ∈ s.missing_decoders ∨ traceDataId p ∉ s.rbl_ids) ∧
      s'.decoded = s.decoded) ∧
    ((∃ p, p ∈ readTrace fuel s ∧ traceDataId p ∉ s.missing_decoders ∧
        traceDataId p ∈ s.rbl_ids) → b = true) := by
  obtain ⟨_, _, e3, _, _, _, _, _, _⟩ := read_packet_spec fuel s b s' h
  obtain ⟨hw, hT, hF⟩ := read_packet_trace_spec fuel s b s' h
  refine ⟨e3, hw, ?_, hT, hF, ?_⟩
  · intro id hid
    have hcid : s.missing_decoders.contains id = true := by simpa using hid
    rw [hw, List.count_append,
      countFilterEq (s.missing_decoders.contains ·) id hcid]
  · rintro ⟨p, hp, h1, h2⟩
    cases b with
    | true => rfl
    | false =>
      rcases (hF rfl).1 p hp with hc | hc
      · exact absurd hc h1
      · exact absurd h2 hc

/-- C1 witness: the amended statement instantiated on the concrete stream
`exC1b` (one missing-decoder packet, then one usable packet). -/
theorem C1_missing_decoder_warn_and_skip_witness :
    exC1bres.2.missing_decoders = exC1b.missing_decoders ∧
    exC1bres.2.warnings = exC1b.warnings ++
      ((readTrace 5 exC1b).map traceDataId).filter
        (exC1b.missing_decoders.contains ·) ∧
    (∀ id ∈ exC1b.missing_decoders,
      exC1bres.2.warnings.count id =
        exC1b.warnings.count id +
          ((readTrace 5 exC1b).map traceDataId).count id) ∧
    (exC1bres.1 = true → ∃ pre q, readTrace 5 exC1b = pre ++ [q] ∧
      (∀ p ∈ pre, traceDataId p ∈ exC1b.missing_decoders ∨
        traceDataId p ∉ exC1b.rbl_ids) ∧
      traceDataId q ∉ exC1b.missing_decoders ∧
      traceDataId q ∈ exC1b.rbl_ids ∧
      exC1bres.2.decoded = exC1b.decoded ++
        [(q.1, traceDataId q, exC1b.decodeFn (traceDataId q) q.1 q.2)]) ∧
    (exC1bres.1 = false →
      (∀ p ∈ readTrace 5 exC1b,
        traceDataId p ∈ exC1b.missing_decoders ∨
          traceDataId p ∉ exC1b.rbl_ids) ∧
      exC1bres.2.decoded = exC1b.decoded) ∧
    ((∃ p, p ∈ readTrace 5 exC1b ∧ traceDataId p ∉ exC1b.missing_decoders ∧
        traceDataId p ∈ exC1b.rbl_ids) → exC1bres.1 = true) :=
  C1_missing_decoder_warn_and_skip 5 exC1b exC1bres.1 exC1bres.2 rfl

/-- C2 counterexample: `read_packet` returns `true` after decoding a packet
even though the decoder's `decode_packet` returned `false` — the claimed
propagation of the decoder's boolean as the return value is false; the
decoder's boolean only lands in `any_full`. -/
theorem C2_read_packet_counterexample :
    ((read_packet 5 exC2).toOption.map
        (Option.map (fun p => (p.1, p.2.decoded, p.2.any_full)))) =
      some (some (true, [((0 : Int), 1835008, false)], false)) ∧
    (true : Bool) ≠ false :=
  ⟨rfl, fun hcon => nomatch hcon⟩

/-- C2 amended: `read_packet` returns `true` iff it decoded a packet (one
`decode_packet` call happened); the decoder's boolean `v` is not returned
but ORed into the streamer's `any_full` flag; and at EOF `read_packet`
returns `false` with the state unchanged. -/
theorem C2_read_packet_result (fuel : Nat) (s : OSt) :
    (∀ (b : Bool) (s' : OSt), read_packet fuel s = .ok (some (b, s')) →
      (b = true ↔ ∃ e, s'.decoded = s.decoded ++ [e]) ∧
      (∀ e, s'.decoded = s.decoded ++ [e] →
        b = true ∧ s'.any_full = (s.any_full || e.2.2)) ∧
      (b = false → s'.decoded = s.decoded ∧ s'.any_full = s.any_full)) ∧
    (s.opened = true → s.data.length ≤ s.pos → 1 ≤ fuel →
      read_packet fuel s = .ok (some (false, s))) := by
  constructor
  · intro b s' h
    obtain ⟨_, _, _, _, _, _, _, ⟨d, hd, hdl, hdiff, hdp⟩, hbf⟩ :=
      read_packet_spec fuel s b s' h
    refine ⟨?_, ?_, ?_⟩
    · rw [hdiff]
      constructor
      · intro hne
        match d, hdl, hne with
        | [e], _, _ => exact ⟨e, hd⟩
      · rintro ⟨e, he⟩
        intro hdnil
        rw [hdnil] at hd
        rw [hd] at he
        simp at he
    · intro e he
      rw [hd] at he
      have hde : d = [e] := List.append_cancel_left he
      refine ⟨hdiff.mpr (by simp [hde]), ?_⟩
      exact (hdp e (by simp [hde])).2.2
    · intro hbf2
      have hdnil : d = [] := by
        by_contra hne
        have hbt := hdiff.mpr hne
        rw [hbf2] at hbt
        exact nomatch hbt
      refine ⟨?_, hbf hbf2⟩
      rw [hd, hdnil, List.append_nil]
  · intro hop hlen hfuel
    obtain ⟨k, rfl⟩ : ∃ k, fuel = k + 1 := ⟨fuel - 1, by omega⟩
    exact read_packet_eof k s hop hlen

/-- C2 witness: at EOF, `read_packet` returns `false` with the state
unchanged. -/
theorem C2_read_packet_result_witness :
    read_packet 1 exEOF = .ok (some (false, exEOF)) :=
  (C2_read_packet_result 1 exEOF).2 rfl (by decide) (by decide)

theorem extendLocs_true_bound (f : Nat) : ∀ (i : Int) (s s' : OSt),
    extendLocs i f s = .ok (true, s') → i < (s'.packet_locs.length : Int) := by
  induction f with
  | zero =>
    intro i s s' h
    simp only [extendLocs] at h
    split at h
    · rename_i hlt
      simp only [Except.ok.injEq, Prod.mk.injEq] at h
      obtain ⟨_, hs⟩ := h
      subst hs
      exact hlt
    · simp at h
  | succ n ih =>
    intro i s s' h
    simp only [extendLocs] at h
    split at h
    · rename_i hlt
      simp only [Except.ok.injEq, Prod.mk.injEq] at h
      obtain ⟨_, hs⟩ := h
      subst hs
      exact hlt
    · cases hsk : skip_packet s 1 with
      | error e => rw [hsk] at h; simp [exc_bind_error] at h
      | ok p =>
        obtain ⟨bk, sk⟩ := p
        rw [hsk] at h
        simp only [exc_bind_ok] at h
        cases bk with
        | true => exact ih i sk s' h
        | false => simp at h

theorem extendLocs_immediate (f : Nat) (i : Int) (s : OSt)
    (hlt : i < (s.packet_locs.length : Int)) :
    extendLocs i f s = .ok (true, s) := by
  cases f <;> simp [extendLocs, hlt]

theorem load_packet_header_success (s : OSt) (hop : s.opened = true)
    (hlen : s.pos + 4 ≤ s.data.length)
    (hlt : s.packet_id + 1 < (s.packet_locs.length : Int))
    (hpy : pyIdx s.packet_locs (s.packet_id + 1) = some s.pos) :
    load_packet_header s = .ok (some (headerWordAt s.data s.pos),
      { s with n_bytes_read := s.n_bytes_read + 4, pos := s.pos + 4,
               packet_id := s.packet_id + 1 }) := by
  have hn4 : (readBytes s.data s.pos 4).length = 4 := by
    simp only [readBytes, List.length_take, List.length_drop]
    omega
  have hfp : s.pos + 4 - 4 = s.pos := by omega
  simp [load_packet_header, hop, hn4, hlt, hfp, hpy, headerWordAt]

theorem loadSeq_success (s : OSt) (hop : s.opened = true)
    (hlen : s.pos + 4 ≤ s.data.length)
    (hlt : s.packet_id + 1 < (s.packet_locs.length : Int))
    (hpy : pyIdx s.packet_locs (s.packet_id + 1) = some s.pos) :
    ∃ s', loadSeq false s = .ok (seqWordsAt s.data s.pos, s') ∧
      s'.packet_id = s.packet_id + 1 ∧ s'.packet_locs = s.packet_locs ∧
      s'.data = s.data ∧ s'.opened = s.opened := by
  have hhd := load_packet_header_success s hop hlen hlt hpy
  simp only [loadSeq, hhd, exc_bind_ok]
  simp only [seqWordsAt]
  split
  · exact ⟨_, rfl, by simp, by simp, by simp, by simp⟩
  · simp only [Bool.false_and, Bool.false_eq_true, if_false]
    split
    · exact ⟨_, rfl, by simp, by simp, by simp, by simp⟩
    · exact ⟨_, rfl, by simp, by simp, by simp, by simp⟩

theorem loadSeq_some_chars (s : OSt) (ws : List Nat) (s' : OSt)
    (h : loadSeq false s = .ok (some ws, s')) :
    seqWordsAt s.data s.pos = some ws ∧ s.pos + 4 ≤ s.data.length ∧
    s.opened = true ∧
    (s.packet_id + 1 < (s.packet_locs.length : Int) →
      s'.packet_locs = s.packet_locs ∧
      pyIdx s.packet_locs (s.packet_id + 1) = some s.pos) := by
  have hop : s.opened = true := by
    by_contra hopf
    simp only [Bool.not_eq_true] at hopf
    simp [loadSeq, load_packet_header, hopf, exc_bind_error] at h
  simp only [loadSeq] at h
  cases hh : load_packet_header s with
  | error e => rw [hh] at h; simp [exc_bind_error] at h
  | ok p =>
    obtain ⟨hOpt, s1⟩ := p
    rw [hh] at h
    simp only [exc_bind_ok] at h
    cases hOpt with
    | none =>
      dsimp only at h
      simp only [Except.ok.injEq, Prod.mk.injEq] at h
      exact nomatch h.1
    | some w =>
      obtain ⟨hw, hlen, hpos1, hpid1, hcase⟩ := load_packet_header_some s w s1 hh
      subst hw
      dsimp only at h
      have hlocs1 : s.packet_id + 1 < (s.packet_locs.length : Int) →
          s1.packet_locs = s.packet_locs ∧
          pyIdx s.packet_locs (s.packet_id + 1) = some s.pos := by
        intro hlt
        rcases hcase with ⟨_, hl, hp⟩ | ⟨heq, _⟩
        · exact ⟨hl, hp⟩
        · omega
      split at h
      · rename_i hshort
        simp only [Except.ok.injEq, Prod.mk.injEq, Option.some.injEq] at h
        obtain ⟨hws, hs⟩ := h
        subst hs
        refine ⟨?_, hlen, hop, fun hlt => (hlocs1 hlt).imp_left id⟩
        simp [seqWordsAt, hshort, hws]
      · simp only [Bool.false_and, Bool.false_eq_true, if_false] at h
        rename_i hshort
        split at h
        · rename_i hcomplete
          simp only [Except.ok.injEq, Prod.mk.injEq, Option.some.injEq] at h
          obtain ⟨hws, hs⟩ := h
          subst hs
          refine ⟨?_, hlen, hop, fun hlt => ?_⟩
          · have hdat : s1.data = s.data :=
              (load_packet_header_ok_facts s _ s1 hh).2.1
            rw [hpos1] at hcomplete hws
            rw [hdat] at hcomplete hws
            simp [seqWordsAt, hshort, hcomplete, hws]
          · exact (hlocs1 hlt).imp_left id
        · simp only [Except.ok.injEq, Prod.mk.injEq] at h
          exact nomatch h.1

theorem extendLocs_open_facts (f : Nat) : ∀ (i : Int) (s : OSt) (b : Bool)
    (s' : OSt), extendLocs i f s = .ok (b, s') →
    s'.opened = s.opened ∧ s'.data = s.data := by
  induction f with
  | zero =>
    intro i s b s' h
    simp only [extendLocs] at h
    split at h
    · simp only [Except.ok.injEq, Prod.mk.injEq] at h
      obtain ⟨_, hs⟩ := h
      subst hs
      exact ⟨rfl, rfl⟩
    · simp at h
  | succ n ih =>
    intro i s b s' h
    simp only [extendLocs] at h
    split at h
    · simp only [Except.ok.injEq, Prod.mk.injEq] at h
      obtain ⟨_, hs⟩ := h
      subst hs
      exact ⟨rfl, rfl⟩
    · cases hsk : skip_packet s 1 with
      | error e => rw [hsk] at h; simp [exc_bind_error] at h
      | ok p =>
        obtain ⟨bk, sk⟩ := p
        rw [hsk] at h
        simp only [exc_bind_ok] at h
        have hskf : sk.data = s.data ∧ sk.opened = s.opened := by
          simp only [skip_packet] at hsk
          split at hsk
          · simp at hsk
          · split at hsk
            · simp at hsk
            · obtain ⟨hd, ho, _⟩ := skip_packet_loop_spec _ s bk sk hsk
              exact ⟨hd, ho⟩
        cases bk with
        | true =>
          obtain ⟨o1, d1⟩ := ih i sk b s' h
          exact ⟨o1.trans hskf.2, d1.trans hskf.1⟩
        | false =>
          simp only [Bool.false_eq_true, if_false, Except.ok.injEq,
            Prod.mk.injEq] at h
          obtain ⟨_, hs⟩ := h
          subst hs
          exact ⟨hskf.2, hskf.1⟩

theorem load_packet_abs_extract (fuel : Nat) (k : Int) (su : Bool) (s : OSt)
    (w : List Nat) (s1 : OSt)
    (h : load_packet fuel (some k) 0 su s = .ok (some w, s1)) :
    s.opened = true ∧ 0 ≤ k ∧
    ∃ sE, extendLocs k fuel s = .ok (true, sE) ∧
      loadSeq su { sE with pos := sE.packet_locs.getD k.toNat 0,
                           packet_id := k - 1 } = .ok (some w, s1) ∧
      k < (sE.packet_locs.length : Int) := by
  cases hop : s.opened with
  | false => simp [load_packet, hop] at h
  | true =>
    simp only [load_packet, hop, Bool.not_true, Bool.false_eq_true, if_false,
      if_true, exc_pure_bind] at h
    by_cases hk : k < 0
    · rw [if_pos hk] at h
      simp at h
    · rw [if_neg hk] at h
      cases hE : extendLocs k fuel s with
      | error e => rw [hE] at h; simp [exc_bind_error] at h
      | ok p =>
        obtain ⟨reached, sE⟩ := p
        rw [hE] at h
        simp only [exc_bind_ok] at h
        cases reached with
        | false => simp at h
        | true =>
          simp only [Bool.not_true, Bool.false_eq_true, if_false] at h
          exact ⟨rfl, by omega, sE, rfl, h, extendLocs_true_bound fuel k s sE hE⟩

theorem load_packet_cur_build (fuel : Nat) (i : Int) (su : Bool) (s : OSt)
    (hop : s.opened = true) (hk : 0 ≤ i + s.packet_id - 1)
    (hlt : i + s.packet_id - 1 < (s.packet_locs.length : Int)) :
    load_packet fuel (some i) 1 su s =
      loadSeq su { s with
        pos := s.packet_locs.getD (i + s.packet_id - 1).toNat 0,
        packet_id := i + s.packet_id - 1 - 1 } := by
  have hneg : ¬ (i + s.packet_id - 1 < 0) := by omega
  simp only [load_packet, hop, Bool.not_true, Bool.false_eq_true, if_false,
    if_true, exc_pure_bind, if_neg hneg, extendLocs_immediate fuel _ s hlt,
    exc_bind_ok]
  simp [hop]

/-- C3 counterexample: after `load_packet(1)` loads packet 1 (words
`[262146, 7]`), the immediately following `load_packet(index=0,
whence=current)` loads packet 0 (words `[262146, 5]`) — `index` is added to
`packet_id - 1`, so index 0 relative to current addresses the *previous*
packet, and the two loads are not byte-identical. -/
theorem C3_reload_counterexample :
    ((load_packet 10 (some 1) 0 false exC3).toOption.map Prod.fst) =
      some (some [262146, 7]) ∧
    ((load_packet 10 (some 0) 1 false exC3s1).toOption.map Prod.fst) =
      some (some [262146, 5]) ∧
    ([262146, 7] : List Nat) ≠ [262146, 5] :=
  ⟨rfl, rfl, by decide⟩

/-- C3 amended: after `load_packet(k)` successfully returns the words of
packet `k`, the addressing scheme that re-loads the same packet is
`load_packet(index=1, whence=current)` (current-relative resolution adds
`packet_id - 1`): it succeeds and returns the identical word sequence. -/
theorem C3_reload_current_packet (fuel fuel2 : Nat) (k : Int) (s : OSt)
    (w : List Nat) (s1 : OSt)
    (h : load_packet fuel (some k) 0 false s = .ok (some w, s1)) :
    ∃ s2, load_packet fuel2 (some 1) 1 false s1 = .ok (some w, s2) := by
  obtain ⟨hop, hk0, sE, hE, hseq, hbound⟩ :=
    load_packet_abs_extract fuel k false s w s1 h
  obtain ⟨hwords, hlen4, hop1, hlocs⟩ := loadSeq_some_chars _ w s1 hseq
  obtain ⟨q1, q2, _, _, _, _, _, _, _, q10⟩ := loadSeq_facts false _ (some w) s1 hseq
  have hu1pid : ({ sE with
      pos := sE.packet_locs.getD k.toNat 0
      packet_id := k - 1 } : OSt).packet_id = k - 1 := rfl
  have hlt1 : ({ sE with
      pos := sE.packet_locs.getD k.toNat 0
      packet_id := k - 1 } : OSt).packet_id + 1 <
      (({ sE with
          pos := sE.packet_locs.getD k.toNat 0
          packet_id := k - 1 } : OSt).packet_locs.length : Int) := by
    simp only [hu1pid]
    have : ({ sE with
        pos := sE.packet_locs.getD k.toNat 0
        packet_id := k - 1 } : OSt).packet_locs = sE.packet_locs := rfl
    rw [this]
    omega
  obtain ⟨hl1, hpy1⟩ := hlocs hlt1
  have hpid1 : s1.packet_id = k := by
    have := (q10 w rfl).1
    simp only [hu1pid] at this
    omega
  have hop1' : s1.opened = true := by
    have hEop := (extendLocs_open_facts fuel k s true sE hE).1
    rw [q1]
    show sE.opened = true
    rw [hEop, hop]
  have hidx : (1 : Int) + s1.packet_id - 1 = k := by omega
  have hlocs1len : s1.packet_locs = sE.packet_locs := hl1
  rw [load_packet_cur_build fuel2 1 false s1 hop1' (by omega)
    (by rw [hidx, hlocs1len]; exact hbound)]
  have hppy : pyIdx sE.packet_locs k = some (sE.packet_locs.getD k.toNat 0) := by
    have hk1 : (k - 1) + 1 = k := by omega
    simpa [hk1] using hpy1
  obtain ⟨s2, hs2, _, _, _, _⟩ := loadSeq_success
    ({ s1 with
        pos := s1.packet_locs.getD ((1 : Int) + s1.packet_id - 1).toNat 0
        packet_id := (1 : Int) + s1.packet_id - 1 - 1 }) (by exact hop1')
    (by
      show s1.packet_locs.getD ((1 : Int) + s1.packet_id - 1).toNat 0 + 4 ≤
        s1.data.length
      rw [hidx, hlocs1len, q2]
      exact hlen4)
    (by
      show ((1 : Int) + s1.packet_id - 1 - 1) + 1 <
        (s1.packet_locs.length : Int)
      rw [hlocs1len]
      omega)
    (by
      show pyIdx s1.packet_locs ((1 : Int) + s1.packet_id - 1 - 1 + 1) =
        some (s1.packet_locs.getD ((1 : Int) + s1.packet_id - 1).toNat 0)
      have hk2 : (1 : Int) + s1.packet_id - 1 - 1 + 1 = k := by omega
      rw [hk2, hidx, hlocs1len]
      exact hppy)
  have hwords2 : seqWordsAt s1.data (s1.packet_locs.getD k.toNat 0) = some w := by
    rw [hlocs1len, q2]
    exact hwords
  refine ⟨s2, ?_⟩
  rw [hs2]
  show Except.ok (seqWordsAt s1.data
    (s1.packet_locs.getD ((1 : Int) + s1.packet_id - 1).toNat 0), s2) =
    Except.ok (some w, s2)
  rw [hidx, hwords2]

/-- C3 witness: on the concrete stream `exC3`, re-loading via
`load_packet(index=1, whence=current)` returns the same words. -/
theorem C3_reload_current_packet_witness :
    ∃ s2, load_packet 10 (some 1) 1 false exC3s1 =
      .ok (some [262146, 7], s2) :=
  C3_reload_current_packet 10 10 1 exC3 [262146, 7] exC3s1 rfl

theorem fcEventDecodeLoop_spec (fcio : FCIO) (pid : Nat) : ∀ (idxs : List Nat)
    (acc : Bool) (rbkd : Nat → Option (RawBuffer EventRow))
    (sk : List (Nat × Nat)),
    (∀ c, ((fcEventDecodeLoop fcio pid idxs acc rbkd sk).2.1 c).map
        (fun rb => (rb.loc, rb.rows.length)) =
      (rbkd c).map (fun rb =>
        (rb.loc + idxs.countP (fun j => fcio.event.trace_list.getD j 0 == c),
         rb.rows.length))) ∧
    ((fcEventDecodeLoop fcio pid idxs acc rbkd sk).1 = true ↔ acc = true ∨
      ∃ c rb2, (fcEventDecodeLoop fcio pid idxs acc rbkd sk).2.1 c = some rb2 ∧
        0 < idxs.countP (fun j => fcio.event.trace_list.getD j 0 == c) ∧
        rb2.is_full = true) := by
  intro idxs
  induction idxs with
  | nil =>
    intro acc rbkd sk
    refine ⟨fun c => by simp [fcEventDecodeLoop], ?_⟩
    simp [fcEventDecodeLoop]
  | cons idx rest ih =>
    intro acc rbkd sk
    have hcp : ∀ c, (idx :: rest).countP
        (fun j => fcio.event.trace_list.getD j 0 == c) =
        rest.countP (fun j => fcio.event.trace_list.getD j 0 == c) +
          (if fcio.event.trace_list.getD idx 0 = c then 1 else 0) := by
      intro c
      rw [List.countP_cons]
      by_cases hceq : fcio.event.trace_list.getD idx 0 = c
      · simp [hceq]
      · simp [hceq]
    cases hrb : rbkd (fcio.event.trace_list.getD idx 0) with
    | none =>
      have hstep : fcEventDecodeLoop fcio pid (idx :: rest) acc rbkd sk =
          fcEventDecodeLoop fcio pid rest acc rbkd
            (skippedIncr sk (fcio.event.trace_list.getD idx 0)) := by
        simp only [fcEventDecodeLoop, hrb]
      obtain ⟨ihmap, ihiff⟩ :=
        ih acc rbkd (skippedIncr sk (fcio.event.trace_list.getD idx 0))
      rw [hstep]
      refine ⟨?_, ?_⟩
      · intro c
        rw [ihmap c, hcp c]
        by_cases hc : fcio.event.trace_list.getD idx 0 = c
        · subst hc
          rw [hrb]
          simp
        · rw [if_neg hc]
          simp
      · rw [ihiff]
        constructor
        · rintro (hacc | ⟨c, rb3, hc3, hcnt, hfull⟩)
          · exact Or.inl hacc
          · exact Or.inr ⟨c, rb3, hc3, by rw [hcp c]; omega, hfull⟩
        · rintro (hacc | ⟨c, rb3, hc3, hcnt, hfull⟩)
          · exact Or.inl hacc
          · rw [hcp c] at hcnt
            by_cases hc : fcio.event.trace_list.getD idx 0 = c
            · subst hc
              have hmap := ihmap (fcio.event.trace_list.getD idx 0)
              rw [hc3, hrb] at hmap
              simp at hmap
            · rw [if_neg hc] at hcnt
              exact Or.inr ⟨c, rb3, hc3, by omega, hfull⟩
    | some rb =>
      set rbNew : RawBuffer EventRow :=
        { loc := rb.loc + 1
          rows := rb.rows.set rb.loc
            (fc_event_row fcio pid idx (fcio.event.trace_list.getD idx 0)) }
        with hrbNew
      set rbkdNew : Nat → Option (RawBuffer EventRow) :=
        (fun c => if c = fcio.event.trace_list.getD idx 0 then some rbNew
          else rbkd c) with hrbkdNew
      have hstep : fcEventDecodeLoop fcio pid (idx :: rest) acc rbkd sk =
          fcEventDecodeLoop fcio pid rest (acc || rbNew.is_full) rbkdNew sk := by
        rw [hrbkdNew, hrbNew]
        simp only [fcEventDecodeLoop, hrb]
      obtain ⟨ihmap, ihiff⟩ := ih (acc || rbNew.is_full) rbkdNew sk
      rw [hstep]
      have hNat : rbkdNew (fcio.event.trace_list.getD idx 0) = some rbNew := by
        rw [hrbkdNew]
        simp
      have hNne : ∀ c, ¬ (fcio.event.trace_list.getD idx 0 = c) →
          rbkdNew c = rbkd c := by
        intro c hne
        have hne2 : ¬ (c = fcio.event.trace_list.getD idx 0) :=
          fun hcc => hne hcc.symm
        rw [hrbkdNew]
        exact if_neg hne2
      have hlenNew : rbNew.rows.length = rb.rows.length := by
        rw [hrbNew]
        exact List.length_set ..
      have hlocNew : rbNew.loc = rb.loc + 1 := by rw [hrbNew]
      refine ⟨?_, ?_⟩
      · intro c
        rw [ihmap c, hcp c]
        by_cases hc : fcio.event.trace_list.getD idx 0 = c
        · subst hc
          rw [hrb, hNat, if_pos rfl]
          simp only [Option.map_some', Option.some.injEq, Prod.mk.injEq]
          exact ⟨by omega, hlenNew⟩
        · rw [hNne c hc, if_neg hc]
          simp
      · rw [ihiff]
        constructor
        · rintro (hacc | ⟨c, rb3, hc3, hcnt, hfull⟩)
          · simp only [Bool.or_eq_true] at hacc
            rcases hacc with hacc | hfull2
            · exact Or.inl hacc
            · refine Or.inr ⟨fcio.event.trace_list.getD idx 0, ?_⟩
              have hmap := ihmap (fcio.event.trace_list.getD idx 0)
              rw [hNat] at hmap
              cases hfin : (fcEventDecodeLoop fcio pid rest (acc || rbNew.is_full)
                  rbkdNew sk).2.1 (fcio.event.trace_list.getD idx 0) with
              | none =>
                rw [hfin] at hmap
                simp [Option.map_none', Option.map_some'] at hmap
              | some rbF =>
                rw [hfin] at hmap
                simp only [Option.map_some', Option.some.injEq,
                  Prod.mk.injEq] at hmap
                refine ⟨rbF, rfl, ?_, ?_⟩
                · rw [hcp]
                  simp
                · simp only [RawBuffer.is_full, decide_eq_true_eq] at hfull2 ⊢
                  omega
          · refine Or.inr ⟨c, rb3, hc3, ?_, hfull⟩
            rw [hcp c]
            omega
        · rintro (hacc | ⟨c, rb3, hc3, hcnt, hfull⟩)
          · exact Or.inl (by simp [hacc])
          · by_cases hcr : 0 < rest.countP
                (fun j => fcio.event.trace_list.getD j 0 == c)
            · exact Or.inr ⟨c, rb3, hc3, hcr, hfull⟩
            · have hceq : fcio.event.trace_list.getD idx 0 = c := by
                rw [hcp c] at hcnt
                by_contra hne
                rw [if_neg hne] at hcnt
                omega
              subst hceq
              have hmap := ihmap (fcio.event.trace_list.getD idx 0)
              rw [hNat, hc3] at hmap
              simp only [Option.map_some', Option.some.injEq,
                Prod.mk.injEq] at hmap
              have hcr0 : rest.countP
                  (fun j => fcio.event.trace_list.getD j 0 ==
                    fcio.event.trace_list.getD idx 0) = 0 := by
                omega
              rw [hcr0] at hmap
              have hfull2 : rbNew.is_full = true := by
                simp only [RawBuffer.is_full, decide_eq_true_eq] at hfull ⊢
                omega
              exact Or.inl (by simp [hfull2])

/-- C4: for both FlashCam decoders, `decode_packet` returns true iff after
the call at least one buffer touched by the call is full (fill offset at or
beyond the table capacity), and each touched buffer's fill offset advances
by exactly the number of rows written into it (one per trigger of its
channel for the event decoder, exactly one for the status decoder);
untouched buffers are unchanged (their advance count is zero). -/
theorem C4_decode_packet_full_contract :
    (∀ (fcio : FCIO) (rbkd : Nat → Option (RawBuffer EventRow)) (pid : Nat)
        (sk : List (Nat × Nat)),
      (∀ c, ((fcEventDecodePacket fcio rbkd pid sk).2.1 c).map
          (fun rb => rb.loc) =
        (rbkd c).map (fun rb => rb.loc + traceWriteCount fcio.event c)) ∧
      ((fcEventDecodePacket fcio rbkd pid sk).1 = true ↔
        ∃ c rb2, (fcEventDecodePacket fcio rbkd pid sk).2.1 c = some rb2 ∧
          0 < traceWriteCount fcio.event c ∧ rb2.is_full = true)) ∧
    (∀ (st : FCIOStatus) (rb : RawBuffer StatusRow),
      (fcStatusDecodePacket st rb).2.loc = rb.loc + 1 ∧
      ((fcStatusDecodePacket st rb).1 = true ↔
        (fcStatusDecodePacket st rb).2.is_full = true)) := by
  constructor
  · intro fcio rbkd pid sk
    obtain ⟨hmap, hiff⟩ := fcEventDecodeLoop_spec fcio pid
      (List.range fcio.event.num_traces) false rbkd sk
    constructor
    · intro c
      have h := hmap c
      simp only [fcEventDecodePacket, traceWriteCount]
      cases hf : (fcEventDecodeLoop fcio pid (List.range fcio.event.num_traces)
          false rbkd sk).2.1 c with
      | none =>
        rw [hf] at h
        simp only [Option.map_none'] at h
        cases hr : rbkd c with
        | none => simp
        | some rb =>
          rw [hr] at h
          simp [Option.map_some'] at h
      | some rbF =>
        rw [hf] at h
        cases hr : rbkd c with
        | none =>
          rw [hr] at h
          simp [Option.map_some', Option.map_none'] at h
        | some rb =>
          rw [hr] at h
          simp only [Option.map_some', Option.some.injEq, Prod.mk.injEq] at h
          simp only [Option.map_some', Option.some.injEq]
          exact h.1
    · simp only [fcEventDecodePacket, traceWriteCount]
      rw [hiff]
      simp
  · intro st rb
    refine ⟨rfl, ?_⟩
    simp [fcStatusDecodePacket, RawBuffer.is_full, List.length_set]

/-! ## Claim C10: schema deep copy and frame effect -/

theorem lookup_map_update {β : Type} (d : List (String × β)) (k k2 : String)
    (v : β) (hne : k2 ≠ k) :
    (d.map (fun p => if p.1 = k then (k, v) else p)).lookup k2 =
      d.lookup k2 := by
  induction d with
  | nil => rfl
  | cons a rest ih =>
    obtain ⟨a1, b1⟩ := a
    have hf : ((a1, b1) :: rest).map (fun p => if p.1 = k then (k, v) else p) =
        (if a1 = k then (k, v) else (a1, b1)) ::
          rest.map (fun p => if p.1 = k then (k, v) else p) := rfl
    rw [hf]
    by_cases hak : a1 = k
    · rw [if_pos hak]
      simp only [List.lookup]
      rw [show (k2 == k) = false from beq_eq_false_iff_ne.mpr hne]
      have hk2a1 : ¬ (k2 = a1) := fun hcc => hne (hak ▸ hcc)
      rw [show (k2 == a1) = false from beq_eq_false_iff_ne.mpr hk2a1]
      exact ih
    · rw [if_neg hak]
      simp only [List.lookup]
      by_cases hk2a : k2 = a1
      · rw [show (k2 == a1) = true from beq_iff_eq.mpr hk2a]
      · rw [show (k2 == a1) = false from beq_eq_false_iff_ne.mpr hk2a]
        exact ih

theorem lookup_append_single {β : Type} (d : List (String × β)) (k k2 : String)
    (v : β) (hne : k2 ≠ k) :
    (d ++ [(k, v)]).lookup k2 = d.lookup k2 := by
  induction d with
  | nil =>
    simp only [List.nil_append, List.lookup]
    rw [show (k2 == k) = false from beq_eq_false_iff_ne.mpr hne]
  | cons a rest ih =>
    obtain ⟨a1, b1⟩ := a
    simp only [List.cons_append, List.lookup]
    by_cases hk2a : k2 = a1
    · rw [show (k2 == a1) = true from beq_iff_eq.mpr hk2a]
    · rw [show (k2 == a1) = false from beq_eq_false_iff_ne.mpr hk2a]
      exact ih

theorem dictSet_lookup_other {β : Type} (d : List (String × β)) (k k2 : String)
    (v : β) (hne : k2 ≠ k) : (dictSet d k v).lookup k2 = d.lookup k2 := by
  unfold dictSet
  split
  · exact lookup_map_update d k k2 v hne
  · exact lookup_append_single d k k2 v hne

theorem lookup_map_update_self {β : Type} (d : List (String × β)) (k : String)
    (v : β) (hsome : (d.lookup k).isSome = true) :
    (d.map (fun p => if p.1 = k then (k, v) else p)).lookup k = some v := by
  induction d with
  | nil => simp [List.lookup] at hsome
  | cons a rest ih =>
    obtain ⟨a1, b1⟩ := a
    have hf : ((a1, b1) :: rest).map (fun p => if p.1 = k then (k, v) else p) =
        (if a1 = k then (k, v) else (a1, b1)) ::
          rest.map (fun p => if p.1 = k then (k, v) else p) := rfl
    rw [hf]
    by_cases hak : a1 = k
    · rw [if_pos hak]
      simp only [List.lookup]
      rw [show (k == k) = true from beq_iff_eq.mpr rfl]
    · rw [if_neg hak]
      simp only [List.lookup]
      have hka : ¬ (k = a1) := fun hcc => hak hcc.symm
      rw [show (k == a1) = false from beq_eq_false_iff_ne.mpr hka]
      apply ih
      simp only [List.lookup] at hsome
      rw [show (k == a1) = false from beq_eq_false_iff_ne.mpr hka] at hsome
      exact hsome

theorem lookup_append_single_self {β : Type} (d : List (String × β))
    (k : String) (v : β) (hnone : d.lookup k = none) :
    (d ++ [(k, v)]).lookup k = some v := by
  induction d with
  | nil =>
    simp only [List.nil_append, List.lookup]
    rw [show (k == k) = true from beq_iff_eq.mpr rfl]
  | cons a rest ih =>
    obtain ⟨a1, b1⟩ := a
    simp only [List.cons_append, List.lookup]
    simp only [List.lookup] at hnone
    cases hba : (k == a1) with
    | true =>
      rw [hba] at hnone
      exact Option.noConfusion hnone
    | false =>
      rw [hba] at hnone
      exact ih hnone

theorem dictSet_lookup_self {β : Type} (d : List (String × β)) (k : String)
    (v : β) : (dictSet d k v).lookup k = some v := by
  unfold dictSet
  split
  · rename_i hsome
    exact lookup_map_update_self d k v hsome
  · rename_i hnone
    exact lookup_append_single_self d k v
      (Option.not_isSome_iff_eq_none.mp hnone)

theorem dictGet2_set2_other (d : DecodedValues) (k1 k2 q1 q2 : String)
    (v : PVal) (hne : ¬ (q1 = k1 ∧ q2 = k2)) :
    dictGet2 (dictSet2 d k1 k2 v) q1 q2 = dictGet2 d q1 q2 := by
  by_cases hq1 : q1 = k1
  · subst hq1
    have hq2 : q2 ≠ k2 := fun hc => hne ⟨rfl, hc⟩
    unfold dictGet2 dictSet2
    rw [dictSet_lookup_self]
    simp only [Option.getD_some]
    exact dictSet_lookup_other _ k2 q2 v hq2
  · unfold dictGet2 dictSet2
    rw [dictSet_lookup_other _ k1 q1 _ hq1]

/-- C10: constructing an `FCEventDecoder` deep-copies the module-level
`fc_decoded_values` into a fresh instance cell (a distinct address), and
`set_file_config` overwrites only that instance's `waveform.wf_len` (with
`nsamples`) and `tracelist.length_guess` (with `nadcs`): every other entry
of the instance schema is unchanged, and the module-level dictionary at
address 0 still holds the original `fc_decoded_values` afterwards. -/
theorem C10_fc_decoded_values_deepcopy_frame (ns na : Int) :
    (fcEventDecoderInit initStore).2 ≠ 0 ∧
    (set_file_config (fcEventDecoderInit initStore).1
        (fcEventDecoderInit initStore).2 ns na).getD 0 [] =
      fc_decoded_values ∧
    dictGet2 ((set_file_config (fcEventDecoderInit initStore).1
        (fcEventDecoderInit initStore).2 ns na).getD
        (fcEventDecoderInit initStore).2 []) "waveform" "wf_len" =
      some (.int ns) ∧
    dictGet2 ((set_file_config (fcEventDecoderInit initStore).1
        (fcEventDecoderInit initStore).2 ns na).getD
        (fcEventDecoderInit initStore).2 []) "tracelist" "length_guess" =
      some (.int na) ∧
    (∀ k1 k2, ¬ (k1 = "waveform" ∧ k2 = "wf_len") →
      ¬ (k1 = "tracelist" ∧ k2 = "length_guess") →
      dictGet2 ((set_file_config (fcEventDecoderInit initStore).1
          (fcEventDecoderInit initStore).2 ns na).getD
          (fcEventDecoderInit initStore).2 []) k1 k2 =
        dictGet2 fc_decoded_values k1 k2) := by
  have hinst : (set_file_config (fcEventDecoderInit initStore).1
      (fcEventDecoderInit initStore).2 ns na).getD
      (fcEventDecoderInit initStore).2 [] =
      dictSet2 (dictSet2 fc_decoded_values "waveform" "wf_len" (.int ns))
        "tracelist" "length_guess" (.int na) := rfl
  refine ⟨by decide, rfl, ?_, ?_, ?_⟩
  · rw [hinst]
    rfl
  · rw [hinst]
    rfl
  · intro k1 k2 hne1 hne2
    rw [hinst]
    rw [dictGet2_set2_other _ _ _ _ _ _ hne2]
    rw [dictGet2_set2_other _ _ _ _ _ _ hne1]

/-- C10 witness: with concrete file-config values, an untouched schema
entry of the instance equals the module-level entry. -/
theorem C10_fc_decoded_values_deepcopy_frame_witness :
    dictGet2 ((set_file_config (fcEventDecoderInit initStore).1
        (fcEventDecoderInit initStore).2 3 2).getD
        (fcEventDecoderInit initStore).2 []) "packet_id" "dtype" =
      dictGet2 fc_decoded_values "packet_id" "dtype" :=
  (C10_fc_decoded_values_deepcopy_frame 3 2).2.2.2.2 "packet_id" "dtype"
    (by decide) (by decide)

end Daq2lh5
